import Mathlib

/-!
# PortScanner (`Scanner.js`): a shallow embedding and its verified properties

The development follows the source file top to bottom:

* `KNOWN_SERVICES` and the lookup `KNOWN_SERVICES[port] || 'Unknown'`;
* `grabBanner` and `scanPort`, as handlers run over the events a socket
  delivers, the returned Promise being settled by the first `resolve` call;
* `scanPorts`, `scanCommonPorts` and the explicit-port branch of `main`, as
  loops over batches, each batch awaited through `Promise.all`;
* `parseArgs`, over the argument vector.

Conventions.  JavaScript numbers that hold ports, indices and counts are
integers here (`Int`); `NaN` is an explicit extra value where `Number(...)`
can produce it (`JSNum`).  A Promise that only its listeners settle is
`Option α`, `none` being a Promise that is still pending; a Promise whose
executor can throw has the three states of `PromiseState`.  A loop whose exit
the source does not guarantee takes fuel, and out of fuel the call is
`pending`: it never returns.
-/

namespace PortScanner

/-! ## Well-known port services -/

/-- The object literal `KNOWN_SERVICES`, one pair per property, in source order. -/
def KNOWN_SERVICES : List (Int × String) :=
  [ (20, "FTP (Data)"), (21, "FTP (Control)"), (22, "SSH"), (23, "Telnet"),
    (25, "SMTP"), (53, "DNS"), (80, "HTTP"), (110, "POP3"), (119, "NNTP"),
    (123, "NTP"), (143, "IMAP"), (161, "SNMP"), (194, "IRC"), (443, "HTTPS"),
    (445, "SMB"), (465, "SMTPS"), (514, "Syslog"), (587, "SMTP (Submission)"),
    (993, "IMAPS"), (995, "POP3S"), (1080, "SOCKS Proxy"), (1433, "MSSQL"),
    (1521, "Oracle DB"), (3306, "MySQL"), (3389, "RDP"), (5432, "PostgreSQL"),
    (5900, "VNC"), (6379, "Redis"), (8080, "HTTP Proxy"), (8443, "HTTPS Alt"),
    (9090, "Prometheus"), (27017, "MongoDB") ]

/-- Property access `KNOWN_SERVICES[port]`: `none` is `undefined`. -/
def knownService (port : Int) : Option String :=
  KNOWN_SERVICES.lookup port

/-- The operator `x || fallback` on a possibly undefined string: `undefined`
and the empty string are falsy. -/
def orDefault (x : Option String) (fallback : String) : String :=
  match x with
  | some s => if s = "" then fallback else s
  | none => fallback

/-- The expression `KNOWN_SERVICES[result.port] || 'Unknown'`. -/
def serviceName (port : Int) : String :=
  orDefault (knownService port) "Unknown"

/-- The keys of `KNOWN_SERVICES`. -/
def knownPorts : List Int := KNOWN_SERVICES.map Prod.fst

/-! ## Strings, Promises and socket events -/

/-- The code points `String.prototype.trim` strips: ECMAScript WhiteSpace
(tab, VT, FF, space, NBSP, ZWNBSP, the Zs category) and LineTerminator. -/
def isJsWhitespace (c : Char) : Bool :=
  let n := c.toNat
  n == 0x09 || n == 0x0A || n == 0x0B || n == 0x0C || n == 0x0D || n == 0x20 ||
  n == 0xA0 || n == 0x1680 || (0x2000 ≤ n && n ≤ 0x200A) || n == 0x2028 ||
  n == 0x2029 || n == 0x202F || n == 0x205F || n == 0x3000 || n == 0xFEFF

/-- The method `s.trim()`: `s` without its leading and trailing whitespace. -/
def jsTrim (s : String) : String :=
  ⟨((s.data.dropWhile isJsWhitespace).reverse.dropWhile isJsWhitespace).reverse⟩

/-- A Promise as its `resolve` function sees it: `none` while pending, `some v`
once settled with `v`. -/
abbrev Promise (α : Type) := Option α

/-- Calling the `resolve` function of a Promise with `v`: a pending Promise
settles with `v`; on a settled Promise the call has no effect. -/
def Promise.resolve {α : Type} (p : Promise α) (v : α) : Promise α :=
  match p with
  | none => some v
  | some w => some w

/-- The state of a Promise: pending, fulfilled with a value, or rejected with
the code of the error that was thrown. -/
inductive PromiseState (α : Type) where
  | pending
  | fulfilled (value : α)
  | rejected (code : String)
  deriving DecidableEq, Repr

/-- The state of a Promise whose executor ran without throwing: what the
`resolve` calls made so far have left. -/
def PromiseState.ofPromise {α : Type} : Promise α → PromiseState α
  | none => .pending
  | some v => .fulfilled v

/-- The value of a fulfilled Promise through `f`; the other states are kept. -/
def PromiseState.map {α β : Type} (f : α → β) : PromiseState α → PromiseState β
  | .pending => .pending
  | .fulfilled v => .fulfilled (f v)
  | .rejected code => .rejected code

/-- The code of the error of a rejected Promise. -/
def PromiseState.rejection? {α : Type} : PromiseState α → Option String
  | .rejected code => some code
  | _ => none

/-- The events a `net.Socket` emits that the program listens to.  `data`
carries the received chunk, already decoded (`data.toString()`). -/
inductive SocketEvent where
  | connect
  | data (chunk : String)
  | timeout
  | error
  | close
  deriving DecidableEq, Repr

/-! ## Banner grabbing -/

/-- The variables of one `grabBanner` call: the local `banner`, what has been
written to the socket, whether `socket.destroy()` has been called, and the
returned Promise (its value is a string or `null`, here `none`). -/
structure BannerSocket where
  banner : String := ""
  written : List String := []
  connected : Bool := false
  destroyed : Bool := false
  promise : Promise (Option String) := none
  deriving DecidableEq, Repr

/-- The expression `banner || null`: the empty string is falsy. -/
def bannerOrNull (banner : String) : Option String :=
  if banner = "" then none else some banner

/-- The listeners `grabBanner` registers, one case per listener.  The connect
callback is a one-time listener. -/
def grabBanner.onEvent (s : BannerSocket) : SocketEvent → BannerSocket
  | .connect =>
    if s.connected then s
    else { s with connected := true, written := s.written ++ ["\r\n"] }
  | .data chunk =>
    { s with banner := s.banner ++ jsTrim chunk, destroyed := true }
  | .timeout =>
    { s with destroyed := true, promise := s.promise.resolve (bannerOrNull s.banner) }
  | .error =>
    { s with destroyed := true, promise := s.promise.resolve (bannerOrNull s.banner) }
  | .close =>
    { s with promise := s.promise.resolve (bannerOrNull s.banner) }

/-- Delivery of the socket's events to the listeners of `grabBanner`.  Once a
listener has called `socket.destroy()` the socket emits `close` and nothing
else, so the remaining events are never delivered. -/
def grabBanner.run : BannerSocket → List SocketEvent → BannerSocket
  | s, [] => if s.destroyed then grabBanner.onEvent s .close else s
  | s, e :: rest =>
    if s.destroyed then grabBanner.onEvent s .close
    else grabBanner.run (grabBanner.onEvent s e) rest

/-- The function `grabBanner(host, port, timeout)`, for a port and a timeout
that `socket.connect` and `socket.setTimeout` accept: `events` are the events
of the socket opened to `(host, port)` with idle timeout `timeout`, in
delivery order, and the value is the returned Promise.  The scan loops call it
only for a port whose probe was fulfilled, with the same timeout. -/
def grabBanner (events : List SocketEvent) : Promise (Option String) :=
  (grabBanner.run {} events).promise

/-! ## Single port scanner -/

/-- The two values of `status`, `'open'` and `'closed'`. -/
inductive Status where
  | Open
  | Closed
  deriving DecidableEq, Repr

/-- The object `{ port, status }` that `scanPort` resolves with. -/
structure ProbeResult where
  port : Int
  status : Status
  deriving DecidableEq, Repr

/-- The variables of one `scanPort` call: whether `socket.destroy()` has been
called, and the returned Promise. -/
structure ProbeSocket where
  destroyed : Bool := false
  promise : Promise ProbeResult := none
  deriving DecidableEq, Repr

/-- The listeners `scanPort` registers; `data` and `close` have none. -/
def scanPort.onEvent (port : Int) (s : ProbeSocket) : SocketEvent → ProbeSocket
  | .connect => { destroyed := true, promise := s.promise.resolve ⟨port, .Open⟩ }
  | .timeout => { destroyed := true, promise := s.promise.resolve ⟨port, .Closed⟩ }
  | .error => { destroyed := true, promise := s.promise.resolve ⟨port, .Closed⟩ }
  | .data _ => s
  | .close => s

/-- Delivery of a socket's events to the listeners of `scanPort`, every event
of the list being delivered, also after `socket.destroy()`. -/
def scanPort.run (port : Int) : ProbeSocket → List SocketEvent → ProbeSocket
  | s, [] => s
  | s, e :: rest => scanPort.run port (scanPort.onEvent port s e) rest

/-- The function `scanPort(host, port, timeout)`, its value being the returned
Promise.  The executor first calls `socket.setTimeout(timeout)`, which throws
`ERR_OUT_OF_RANGE` for a negative number, then `socket.connect(port, host,
cb)`, which throws `ERR_SOCKET_BAD_PORT` for a port outside 0..65535; an
executor that throws rejects the Promise and registers no further listener.
Otherwise `events` are the events of the socket opened to `(host, port)`, in
delivery order.  With `timeout` 0 the socket has no idle timer and emits no
timeout event. -/
def scanPort (port timeout : Int) (events : List SocketEvent) : PromiseState ProbeResult :=
  if timeout < 0 then .rejected "ERR_OUT_OF_RANGE"
  else if port < 0 ∨ 65535 < port then .rejected "ERR_SOCKET_BAD_PORT"
  else .ofPromise (scanPort.run port {} events).promise

/-! ## Arrays and `Promise.all` -/

/-- The method `xs.slice(start, stop)` with the relative-index rules of
`Array.prototype.slice`: a negative index counts from the end, and both are
clamped to `[0, xs.length]`. -/
def jsSlice {α : Type} (xs : List α) (start stop : Int) : List α :=
  let len : Int := xs.length
  let k : Int := if start < 0 then max (len + start) 0 else min start len
  let final : Int := if stop < 0 then max (len + stop) 0 else min stop len
  (xs.drop k.toNat).take (final - k).toNat

/-- The values of a list of slots, when every slot is filled. -/
def allFilled {α : Type} : List (Option α) → Option (List α)
  | [] => some []
  | none :: _ => none
  | some v :: rest => (allFilled rest).map (v :: ·)

/-- One settlement seen by `Promise.all`: input promise `i` is fulfilled and
its value goes to slot `i` of the value array.  An index that names no
promise, or a promise that is never fulfilled, fills nothing. -/
def promiseAll.settle {α : Type} (promises : List (PromiseState α))
    (slots : List (Option α)) (i : Nat) : List (Option α) :=
  match promises.get? i with
  | some (.fulfilled v) => slots.set i (some v)
  | _ => slots

/-- The call `Promise.all(promises)`, where `order` lists the indices of the
input promises in the order in which they are fulfilled.  An input that is
rejected (in this program, by its executor, before any event) rejects the
combined Promise, with the error of the first such input.  Otherwise the
combined Promise is fulfilled once every slot is filled, with the values in
index order. -/
def promiseAll {α : Type} (promises : List (PromiseState α)) (order : List Nat) :
    PromiseState (List α) :=
  match promises.findSome? PromiseState.rejection? with
  | some code => .rejected code
  | none =>
    .ofPromise
      (allFilled
        (order.foldl (promiseAll.settle promises) (List.replicate promises.length none)))

/-! ## The scan engine -/

/-- What the target answers during one scan: the events of the socket that
`scanPort` opens to each port, the events of the socket that `grabBanner`
opens to each port, and, for the batch that starts at index `i` of the port
array, the order in which its probes settle. -/
structure Network where
  probe : Int → List SocketEvent
  banner : Int → List SocketEvent
  order : Int → List Nat

/-- An element of the `results` array.  A closed port is pushed as the bare
probe result (`service` absent, here `none`); an open port is pushed as
`{ ...result, service, banner }`, where `banner` may be `null` (`none`). -/
structure AnnotatedResult where
  port : Int
  status : Status
  service : Option String := none
  banner : Option String := none
  deriving DecidableEq, Repr

/-- The `options` argument of `scanPorts`, with the defaults of its
destructuring. -/
structure ScanOptions where
  timeout : Int := 2000
  concurrency : Int := 100
  showClosed : Bool := false
  bannerGrab : Bool := false
  deriving DecidableEq, Repr

/-- The variables the scan loops update (`results`, `scanned`, `openCount`),
with two traces: the ports of each group of probes handed to one
`Promise.all`, in launch order, and the ports `grabBanner` was called for. -/
structure ScanState where
  results : List AnnotatedResult := []
  scanned : Nat := 0
  openCount : Nat := 0
  launched : List (List Int) := []
  grabbed : List Int := []
  deriving DecidableEq, Repr

/-- The three numbers of the summary line. -/
structure Summary where
  openCount : Int
  closedCount : Int
  totalPorts : Int
  deriving DecidableEq, Repr

/-- What a completed scan leaves: the returned `results`, the printed summary,
and the two traces. -/
structure ScanRun where
  results : List AnnotatedResult
  summary : Summary
  launched : List (List Int)
  grabbed : List Int
  deriving DecidableEq, Repr

/-- The function `printSummary(results, openCount, totalPorts)`: the numbers it
prints. -/
def printSummary (_results : List AnnotatedResult) (openCount totalPorts : Int) : Summary :=
  let closedCount := totalPorts - openCount
  { openCount := openCount, closedCount := closedCount, totalPorts := totalPorts }

/-- The statements `let banner = null; if (bannerGrab) banner = await
grabBanner(...)` followed by `results.push({ ...result, service, banner })`.
A banner Promise that stays pending blocks the scan. -/
def pushOpen (net : Network) (bannerGrab : Bool) (st : ScanState) (result : ProbeResult)
    (service : String) : PromiseState ScanState :=
  if bannerGrab then
    match grabBanner (net.banner result.port) with
    | none => .pending
    | some banner =>
      .fulfilled { st with
        grabbed := st.grabbed ++ [result.port]
        results := st.results ++
          [{ port := result.port, status := result.status, service := some service,
             banner := banner }] }
  else
    .fulfilled { st with
      results := st.results ++
        [{ port := result.port, status := result.status, service := some service,
           banner := none }] }

/-- The body of `for (const result of batchResults)` in `scanPorts`. -/
def scanPorts.report (net : Network) (options : ScanOptions) (st : ScanState)
    (result : ProbeResult) : PromiseState ScanState :=
  let st := { st with scanned := st.scanned + 1 }
  if result.status = .Open then
    let st := { st with openCount := st.openCount + 1 }
    let service := serviceName result.port
    pushOpen net options.bannerGrab st result service
  else if options.showClosed then
    .fulfilled { st with
      results := st.results ++ [{ port := result.port, status := result.status }] }
  else
    .fulfilled st

/-- The loop `for (const result of batchResults)` in `scanPorts`. -/
def scanPorts.reportAll (net : Network) (options : ScanOptions) :
    ScanState → List ProbeResult → PromiseState ScanState
  | st, [] => .fulfilled st
  | st, result :: rest =>
    match scanPorts.report net options st result with
    | .pending => .pending
    | .rejected code => .rejected code
    | .fulfilled st => scanPorts.reportAll net options st rest

/-- The loop `for (let i = 0; i < ports.length; i += concurrency)` of
`scanPorts`, from index `i`.  Out of fuel, or blocked on a Promise that never
settles, the call is pending; an awaited Promise that is rejected rejects
it. -/
def scanPorts.loop (net : Network) (options : ScanOptions) (ports : List Int) :
    Nat → Int → ScanState → PromiseState ScanState
  | 0, _, _ => .pending
  | fuel + 1, i, st =>
    if i < ports.length then
      let batch := jsSlice ports i (i + options.concurrency)
      let st := { st with launched := st.launched ++ [batch] }
      match promiseAll
          (batch.map fun port => scanPort port options.timeout (net.probe port))
          (net.order i) with
      | .pending => .pending
      | .rejected code => .rejected code
      | .fulfilled batchResults =>
        match scanPorts.reportAll net options st batchResults with
        | .pending => .pending
        | .rejected code => .rejected code
        | .fulfilled st => scanPorts.loop net options ports fuel (i + options.concurrency) st
    else .fulfilled st

/-- The loop `for (let p = startPort; p <= endPort; p++) ports.push(p)`. -/
def scanPorts.range (endPort : Int) : Nat → Int → List Int
  | 0, _ => []
  | fuel + 1, p => if p ≤ endPort then p :: scanPorts.range endPort fuel (p + 1) else []

/-- The array `ports` that `scanPorts` builds.  The fuel is the number of
iterations the loop makes, so the loop ends on its own test. -/
def scanPorts.ports (startPort endPort : Int) : List Int :=
  scanPorts.range endPort (endPort - startPort + 1).toNat startPort

/-- The batch loop of `scanPorts` over a given `ports` array, from a fresh
state.  With `concurrency ≥ 1` the loop body runs at most `ports.length` times,
so the fuel is enough; with `concurrency ≤ 0` and a port to scan the loop of
the source never ends. -/
def scanPorts.schedule (net : Network) (options : ScanOptions) (ports : List Int) :
    PromiseState ScanState :=
  scanPorts.loop net options ports (ports.length + 1) 0 {}

/-- The function `scanPorts(host, startPort, endPort, options)`, its value
being the Promise the `async` function returns: pending when the call never
returns, rejected when an awaited Promise is. -/
def scanPorts (net : Network) (startPort endPort : Int) (options : ScanOptions := {}) :
    PromiseState ScanRun :=
  let totalPorts := endPort - startPort + 1
  let ports := scanPorts.ports startPort endPort
  match scanPorts.schedule net options ports with
  | .pending => .pending
  | .rejected code => .rejected code
  | .fulfilled st =>
    .fulfilled { results := st.results
                 summary := printSummary st.results st.openCount totalPorts
                 launched := st.launched
                 grabbed := st.grabbed }

/-! ## Common ports scan -/

/-- The array `commonPorts` of `scanCommonPorts`. -/
def commonPorts : List Int :=
  [ 21, 22, 23, 25, 53, 80, 110, 119, 123, 143, 161, 194,
    443, 445, 465, 587, 993, 995, 1080, 1433, 1521, 3306,
    3389, 5432, 5900, 6379, 8080, 8443, 9090, 27017 ]

/-- The body of `for (const result of batchResults)` in `scanCommonPorts`:
closed ports are skipped. -/
def scanCommonPorts.report (net : Network) (options : ScanOptions) (st : ScanState)
    (result : ProbeResult) : PromiseState ScanState :=
  if result.status = .Open then
    let st := { st with openCount := st.openCount + 1 }
    let service := serviceName result.port
    pushOpen net options.bannerGrab st result service
  else
    .fulfilled st

/-- The loop `for (const result of batchResults)` in `scanCommonPorts`. -/
def scanCommonPorts.reportAll (net : Network) (options : ScanOptions) :
    ScanState → List ProbeResult → PromiseState ScanState
  | st, [] => .fulfilled st
  | st, result :: rest =>
    match scanCommonPorts.report net options st result with
    | .pending => .pending
    | .rejected code => .rejected code
    | .fulfilled st => scanCommonPorts.reportAll net options st rest

/-- The loop `for (let i = 0; i < commonPorts.length; i += concurrency)` of
`scanCommonPorts`, from index `i`. -/
def scanCommonPorts.loop (net : Network) (options : ScanOptions) :
    Nat → Int → ScanState → PromiseState ScanState
  | 0, _, _ => .pending
  | fuel + 1, i, st =>
    if i < commonPorts.length then
      let batch := jsSlice commonPorts i (i + options.concurrency)
      let st := { st with launched := st.launched ++ [batch] }
      match promiseAll
          (batch.map fun port => scanPort port options.timeout (net.probe port))
          (net.order i) with
      | .pending => .pending
      | .rejected code => .rejected code
      | .fulfilled batchResults =>
        match scanCommonPorts.reportAll net options st batchResults with
        | .pending => .pending
        | .rejected code => .rejected code
        | .fulfilled st => scanCommonPorts.loop net options fuel (i + options.concurrency) st
    else .fulfilled st

/-- The function `scanCommonPorts(host, options)`; its `concurrency` defaults
to 30. -/
def scanCommonPorts (net : Network) (options : ScanOptions := { concurrency := 30 }) :
    PromiseState ScanRun :=
  match scanCommonPorts.loop net options (commonPorts.length + 1) 0 {} with
  | .pending => .pending
  | .rejected code => .rejected code
  | .fulfilled st =>
    .fulfilled { results := st.results
                 summary :=
                  { openCount := st.openCount
                    closedCount := (commonPorts.length : Int) - st.openCount
                    totalPorts := commonPorts.length }
                 launched := st.launched
                 grabbed := st.grabbed }

/-! ## The explicit port set of `main` -/

/-- The body of `for (const result of batchResults)` in the `customPorts`
branch of `main`: a closed port is printed when `showClosed` is set, and is
not pushed. -/
def main.report (net : Network) (bannerGrab : Bool) (st : ScanState)
    (result : ProbeResult) : PromiseState ScanState :=
  if result.status = .Open then
    let service := serviceName result.port
    pushOpen net bannerGrab st result service
  else
    .fulfilled st

/-- The loop `for (const result of batchResults)` in the `customPorts` branch
of `main`. -/
def main.reportAll (net : Network) (bannerGrab : Bool) :
    ScanState → List ProbeResult → PromiseState ScanState
  | st, [] => .fulfilled st
  | st, result :: rest =>
    match main.report net bannerGrab st result with
    | .pending => .pending
    | .rejected code => .rejected code
    | .fulfilled st => main.reportAll net bannerGrab st rest

/-- The branch `else if (config.customPorts)` of `main`.  It reads
`config.customPorts`, `config.timeout`, `config.bannerGrab` and
`config.showClosed`; `config.concurrency` is not read: all the ports go to one
`Promise.all`. -/
def main.scanCustomPorts (net : Network) (customPorts : List Int) (timeout : Int)
    (bannerGrab : Bool) : PromiseState ScanRun :=
  let st : ScanState := { launched := [customPorts] }
  match promiseAll
      (customPorts.map fun port => scanPort port timeout (net.probe port))
      (net.order 0) with
  | .pending => .pending
  | .rejected code => .rejected code
  | .fulfilled batchResults =>
    match main.reportAll net bannerGrab st batchResults with
    | .pending => .pending
    | .rejected code => .rejected code
    | .fulfilled st =>
      let openCount : Int := (st.results.filter fun r => r.status = .Open).length
      .fulfilled { results := st.results
                   summary :=
                    { openCount := openCount
                      closedCount := (customPorts.length : Int) - openCount
                      totalPorts := customPorts.length }
                   launched := st.launched
                   grabbed := st.grabbed }

/-! ## Command-line arguments -/

/-- A JavaScript number as `parseArgs` handles them: `NaN` or an integer. -/
inductive JSNum where
  | NaN
  | num (n : Int)
  deriving DecidableEq, Repr

/-- The comparison `a < b` of two numbers: false when either is `NaN`. -/
def JSNum.lt : JSNum → JSNum → Bool
  | .num a, .num b => decide (a < b)
  | _, _ => false

/-- The largest integer up to which every integer is a JavaScript number,
`2 ^ 53`. -/
def maxExactInteger : Nat := 9007199254740992

/-- The value of a non-empty string of decimal digits, when it is at most
`2 ^ 53`; beyond, `Number` rounds to a double, which is not modelled. -/
def decimalValue (cs : List Char) : Option Nat :=
  if cs ≠ [] ∧ cs.all Char.isDigit then
    let n := cs.foldl (fun acc c => 10 * acc + (c.toNat - '0'.toNat)) 0
    if n ≤ maxExactInteger then some n else none
  else none

/-- The conversion `Number(s)` for a string, on the strings whose value is an
integer the model holds exactly, or `NaN`: the string is trimmed; the empty
string is `0`, a decimal integer literal of absolute value at most `2 ^ 53`,
with an optional sign, is its value, and a string whose first character can
start no numeric literal is `NaN`.  Every other string is outside the model:
`none` (a larger literal, which `Number` rounds; a literal with a fraction, an
exponent or a radix prefix; `Infinity`; a digit followed by other
characters). -/
def jsNumber (s : String) : Option JSNum :=
  match (jsTrim s).data with
  | [] => some (.num 0)
  | c :: cs =>
    match decimalValue (c :: cs) with
    | some n => some (.num n)
    | none =>
      if c = '+' then (decimalValue cs).map fun n => .num n
      else if c = '-' then (decimalValue cs).map fun n => .num (-(n : Int))
      else if c.isDigit || c = '.' || c = 'I' then none
      else some .NaN

/-- The conversion `Number(x)` for an array element that may be `undefined` (`none`):
`Number(undefined)` is `NaN`. -/
def jsNumberArg : Option String → Option JSNum
  | none => some .NaN
  | some s => jsNumber s

/-- The expression `n || fallback` on numbers: `NaN` and `0` are falsy. -/
def JSNum.orElse (n : JSNum) (fallback : Int) : Int :=
  match n with
  | .NaN => fallback
  | .num k => if k = 0 then fallback else k

/-- The method `s.split(sep)` for a one-character separator, on lists of characters. -/
def splitOnChar (sep : Char) : List Char → List (List Char)
  | [] => [[]]
  | c :: cs =>
    if c = sep then [] :: splitOnChar sep cs
    else
      match splitOnChar sep cs with
      | [] => [[c]]
      | part :: parts => (c :: part) :: parts

/-- The expression `s.split(sep).map(Number)`; `none` when a part is outside `jsNumber`. -/
def splitNumbers (sep : Char) (s : String) : Option (List JSNum) :=
  allFilled ((splitOnChar sep s.data).map fun part => jsNumber ⟨part⟩)

/-- The object `config` of `parseArgs`, with its initial values. -/
structure Config where
  host : String
  startPort : JSNum := .num 1
  endPort : JSNum := .num 1024
  customPorts : Option (List JSNum) := none
  commonScan : Bool := false
  timeout : Int := 2000
  concurrency : Int := 100
  showClosed : Bool := false
  bannerGrab : Bool := false
  deriving DecidableEq, Repr

/-- How `parseArgs` ends: `process.exit(code)` after a message, or the returned
`config`. -/
inductive ParseOutcome where
  | exit (code : Nat) (message : String)
  | config (c : Config)
  deriving DecidableEq, Repr

/-- The `// Validate ports` check at the end of `parseArgs`. -/
def parseArgs.validate (config : Config) : ParseOutcome :=
  if config.startPort.lt (.num 1) || (JSNum.num 65535).lt config.endPort ||
      config.endPort.lt config.startPort then
    .exit 1 "Error: Invalid port range (must be 1-65535)"
  else .config config

/-- The case `-p` / `--ports` of the switch, for a defined non-empty `portArg`. -/
def parseArgs.ports (config : Config) (portArg : String) : Option Config :=
  if ',' ∈ portArg.data then
    (splitNumbers ',' portArg).map fun ports => { config with customPorts := some ports }
  else if '-' ∈ portArg.data then
    match splitNumbers '-' portArg with
    | some (start :: stop :: _) => some { config with startPort := start, endPort := stop }
    | _ => none
  else
    (jsNumber portArg).map fun n => { config with startPort := n, endPort := n }

/-- The loop `for (let i = 1; i < args.length; i++)` of `parseArgs` over the
arguments from index `i` on, followed by the validation.  An option that takes
a value reads `args[++i]`, which is `undefined` past the end of the array.
`none`: an argument is outside `jsNumber`. -/
def parseArgs.loop : List String → Config → Option ParseOutcome
  | [], config => some (parseArgs.validate config)
  | arg :: rest, config =>
    if arg = "-p" ∨ arg = "--ports" then
      match rest with
      | [] => some (.exit 1 "Error: --ports requires a value")
      | portArg :: rest =>
        if portArg = "" then some (.exit 1 "Error: --ports requires a value")
        else
          match parseArgs.ports config portArg with
          | none => none
          | some config => parseArgs.loop rest config
    else if arg = "-c" ∨ arg = "--common" then
      parseArgs.loop rest { config with commonScan := true }
    else if arg = "-t" ∨ arg = "--timeout" then
      match rest with
      | [] =>
        (jsNumberArg none).map fun n =>
          parseArgs.validate { config with timeout := n.orElse 2000 }
      | value :: rest =>
        match jsNumberArg (some value) with
        | none => none
        | some n => parseArgs.loop rest { config with timeout := n.orElse 2000 }
    else if arg = "--concurrency" then
      match rest with
      | [] =>
        (jsNumberArg none).map fun n =>
          parseArgs.validate { config with concurrency := n.orElse 100 }
      | value :: rest =>
        match jsNumberArg (some value) with
        | none => none
        | some n => parseArgs.loop rest { config with concurrency := n.orElse 100 }
    else if arg = "--show-closed" then
      parseArgs.loop rest { config with showClosed := true }
    else if arg = "-b" ∨ arg = "--banner" then
      parseArgs.loop rest { config with bannerGrab := true }
    else
      some (.exit 1 ("Unknown option: " ++ arg))

/-- The function `parseArgs(argv)`. -/
def parseArgs (argv : List String) : Option ParseOutcome :=
  let args := argv.drop 2
  match args with
  | [] => some (.exit 0 "usage")
  | host :: rest =>
    if "-h" ∈ args ∨ "--help" ∈ args then some (.exit 0 "usage")
    else parseArgs.loop rest { host := host }

/-! ## Closed forms of what the scan loop computes

The theorems below state the result of the scan loop through these functions
of the port array; they are not part of the program. -/

/-- The status the probe of `port` is fulfilled with; `none` when it stays
pending or is rejected. -/
def Network.outcome (net : Network) (timeout port : Int) : Option Status :=
  match scanPort port timeout (net.probe port) with
  | .fulfilled result => some result.status
  | _ => none

/-- The probe result of `port`, for a probe that is fulfilled. -/
def Network.result (net : Network) (timeout port : Int) : ProbeResult :=
  { port := port, status := (net.outcome timeout port).getD .Closed }

/-- The record the report loop of `scanPorts` pushes for `port`, if any. -/
def Network.record (net : Network) (options : ScanOptions) (port : Int) :
    Option AnnotatedResult :=
  match net.outcome options.timeout port with
  | some .Open =>
    some { port := port, status := .Open, service := some (serviceName port),
           banner := if options.bannerGrab then (grabBanner (net.banner port)).join else none }
  | some .Closed =>
    if options.showClosed then some { port := port, status := .Closed } else none
  | none => none

/-- The ports of a list whose probe is fulfilled with Open. -/
def Network.openPorts (net : Network) (timeout : Int) (ports : List Int) : List Int :=
  ports.filter fun p => net.outcome timeout p = some .Open

/-- The ports of a list whose probe is fulfilled with Closed. -/
def Network.closedPorts (net : Network) (timeout : Int) (ports : List Int) : List Int :=
  ports.filter fun p => net.outcome timeout p = some .Closed

/-- The state after the report loop of `scanPorts` has handled the probe results
of `ports`, in order, from state `st`. -/
def ScanState.extend (st : ScanState) (net : Network) (options : ScanOptions)
    (ports : List Int) : ScanState :=
  { results := st.results ++ ports.filterMap (net.record options)
    scanned := st.scanned + ports.length
    openCount := st.openCount + (net.openPorts options.timeout ports).length
    launched := st.launched
    grabbed :=
      st.grabbed ++ if options.bannerGrab then net.openPorts options.timeout ports else [] }

/-- The slices `ports.slice(k * c, k * c + c)` for `k = 0, 1, ..., ⌈N / c⌉ - 1`,
where `N` is the length of `ports`. -/
def batchesOf {α : Type} (c : Nat) (ports : List α) : List (List α) :=
  (List.range ((ports.length + c - 1) / c)).map fun k => (ports.drop (k * c)).take c

/-- Every probe and every banner grab the scan of `ports` waits for settles:
each port's probe is fulfilled (so the port and the timeout are ones the
socket accepts), the banner grab of each open port settles when banners are
grabbed, and each index of a batch occurs in the settle order of that
batch. -/
structure Network.Settles (net : Network) (options : ScanOptions) (ports : List Int) :
    Prop where
  probe : ∀ p ∈ ports, net.outcome options.timeout p ≠ none
  banner : options.bannerGrab = true →
    ∀ p ∈ ports, net.outcome options.timeout p = some .Open →
      grabBanner (net.banner p) ≠ none
  order : ∀ (i : Int) (k : Nat), (k : Int) < options.concurrency → k ∈ net.order i

/-- A record without its banner. -/
def AnnotatedResult.withoutBanner (r : AnnotatedResult) : AnnotatedResult :=
  { r with banner := none }

/-- A target that accepts connections on port 80 only and is silent on every
other port; its banner is `hello`; the probes of a batch settle last to
first. -/
def lateFirst : Network :=
  { probe := fun p => if p = 80 then [.connect] else [.timeout]
    banner := fun _ => [.connect, .data "hello\n"]
    order := fun _ => [9, 8, 7, 6, 5, 4, 3, 2, 1, 0] }

/-- The target `lateFirst` with a banner collector that times out, and probes
that settle in launch order. -/
def noBanner : Network :=
  { probe := lateFirst.probe
    banner := fun _ => [.connect, .timeout]
    order := fun _ => [0, 1, 2, 3, 4, 5, 6, 7, 8, 9] }


/-! ## Service lookup -/

theorem lookup_of_mem {l : List (Int × String)} (hnd : (l.map Prod.fst).Nodup)
    {k : Int} {v : String} (h : (k, v) ∈ l) : l.lookup k = some v := by
  induction l with
  | nil => simp at h
  | cons a t ih =>
    obtain ⟨a1, a2⟩ := a
    simp only [List.map_cons, List.nodup_cons, List.mem_map, Prod.exists, exists_and_right,
      exists_eq_right, not_exists] at hnd
    rcases List.mem_cons.1 h with h1 | h1
    · cases h1; simp [List.lookup]
    · have hne : k ≠ a1 := by rintro rfl; exact hnd.1 v h1
      have hb : (k == a1) = false := by simpa using hne
      rw [List.lookup_cons, hb]
      exact ih hnd.2 h1

theorem lookup_none_of_not_mem {l : List (Int × String)} {k : Int}
    (h : k ∉ l.map Prod.fst) : l.lookup k = none := by
  induction l with
  | nil => rfl
  | cons a t ih =>
    obtain ⟨a1, a2⟩ := a
    simp only [List.map_cons, List.mem_cons, not_or] at h
    have hb : (k == a1) = false := by simpa using h.1
    rw [List.lookup_cons, hb]
    exact ih h.2

theorem mem_of_lookup {l : List (Int × String)} {k : Int} {v : String}
    (h : l.lookup k = some v) : (k, v) ∈ l := by
  induction l with
  | nil => simp at h
  | cons a t ih =>
    obtain ⟨a1, a2⟩ := a
    rw [List.lookup_cons] at h
    by_cases hk : k = a1
    · subst hk; simp at h; subst h; simp
    · have hb : (k == a1) = false := by simpa using hk
      rw [hb] at h
      exact List.mem_cons_of_mem _ (ih h)

theorem knownPorts_nodup : knownPorts.Nodup := by decide

theorem known_names_ok : ∀ kv ∈ KNOWN_SERVICES, kv.2 ≠ "" ∧ kv.2 ≠ "Unknown" := by decide

theorem serviceName_of_mem {port : Int} {name : String} (h : (port, name) ∈ KNOWN_SERVICES) :
    serviceName port = name := by
  have hl : knownService port = some name := lookup_of_mem knownPorts_nodup h
  have hne : name ≠ "" := (known_names_ok _ h).1
  simp [serviceName, hl, orDefault, hne]

theorem serviceName_of_not_mem {port : Int} (h : port ∉ knownPorts) :
    serviceName port = "Unknown" := by
  have hl : knownService port = none := lookup_none_of_not_mem h
  simp [serviceName, hl, orDefault]

theorem serviceName_ne_empty (port : Int) : serviceName port ≠ "" := by
  unfold serviceName
  cases hl : knownService port with
  | none => simp [orDefault]
  | some name =>
    have hne : name ≠ "" := (known_names_ok _ (mem_of_lookup hl)).1
    simp [orDefault, hne]

/-- C10: the lookup `KNOWN_SERVICES[port] || 'Unknown'` returns, for every key
of the table, exactly the table's entry (22 gives SSH, 443 gives HTTPS), and
for every other port exactly `Unknown`; it never returns the empty string, and
never `Unknown` for a key of the table. -/
theorem serviceName_total (port : Int) :
    (∀ name, (port, name) ∈ KNOWN_SERVICES → serviceName port = name) ∧
    (port ∉ knownPorts → serviceName port = "Unknown") ∧
    serviceName port ≠ "" ∧
    (port ∈ knownPorts → serviceName port ≠ "Unknown") ∧
    serviceName 22 = "SSH" ∧ serviceName 443 = "HTTPS" := by
  refine ⟨fun name h => serviceName_of_mem h, serviceName_of_not_mem, serviceName_ne_empty port,
    ?_, by decide, by decide⟩
  intro h
  obtain ⟨⟨k, name⟩, hmem, hk⟩ := List.mem_map.1 h
  simp only at hk
  subst hk
  rw [serviceName_of_mem hmem]
  exact (known_names_ok _ hmem).2

/-- C10, at a port of the table and at a port outside it. -/
theorem serviceName_total_witness :
    serviceName 8080 = "HTTP Proxy" ∧ serviceName 8081 = "Unknown" ∧
    serviceName 8080 ≠ "Unknown" :=
  ⟨(serviceName_total 8080).1 "HTTP Proxy" (by decide),
   (serviceName_total 8081).2.1 (by decide),
   (serviceName_total 8080).2.2.2.1 (by decide)⟩

/-! ## Single port scanner -/

/-- A settled `scanPort` Promise on a destroyed socket is left as it is by
every further event. -/
theorem scanPort.run_keeps_value (port : Int) (r : ProbeResult) (events : List SocketEvent) :
    scanPort.run port { destroyed := true, promise := some r } events =
      { destroyed := true, promise := some r } := by
  induction events with
  | nil => rfl
  | cons e rest ih =>
    cases e <;> simpa [scanPort.run, scanPort.onEvent, Promise.resolve] using ih

/-- A port outside 0..65535, or a negative timeout, rejects the Promise of
`scanPort`, whatever the events. -/
theorem scanPort_rejected (port timeout : Int) (events : List SocketEvent)
    (h : timeout < 0 ∨ port < 0 ∨ 65535 < port) :
    scanPort port timeout events = .rejected "ERR_OUT_OF_RANGE" ∨
    scanPort port timeout events = .rejected "ERR_SOCKET_BAD_PORT" := by
  unfold scanPort
  by_cases ht : timeout < 0
  · exact Or.inl (by simp [ht])
  · have hp : port < 0 ∨ 65535 < port := h.resolve_left ht
    exact Or.inr (by simp [ht, hp])

/-- C5, as the code has it: for a port in 0..65535 and a timeout that is not
negative, when the first event the `scanPort` socket delivers is connect,
timeout or error, the returned Promise is fulfilled at that event with the
record of the port the call was given, Open exactly when the event is connect
and Closed otherwise; the socket is destroyed by that event; and whatever
events follow, the Promise keeps that value and the socket stays destroyed. -/
theorem scanPort_first_event (port timeout : Int) (first : SocketEvent)
    (rest : List SocketEvent) (hport : 0 ≤ port ∧ port ≤ 65535) (htimeout : 0 ≤ timeout)
    (h : first = .connect ∨ first = .timeout ∨ first = .error) :
    scanPort port timeout [first] =
        .fulfilled { port := port, status := if first = .connect then .Open else .Closed } ∧
    scanPort port timeout (first :: rest) = scanPort port timeout [first] ∧
    (∀ r, scanPort port timeout (first :: rest) = .fulfilled r →
      r.port = port ∧ (r.status = .Open ↔ first = .connect)) ∧
    (scanPort.run port {} [first]).destroyed = true ∧
    (scanPort.run port {} (first :: rest)).destroyed = true := by
  have h1 : ¬ (timeout < 0) := by omega
  have h2 : ¬ (port < 0 ∨ 65535 < port) := by omega
  rcases h with h | h | h <;> subst h <;>
    simp [scanPort, h1, h2, PromiseState.ofPromise, scanPort.run, scanPort.onEvent,
      Promise.resolve, scanPort.run_keeps_value]

/-- C5, on a socket that connects and later also reports a timeout and an
error, and on one that times out before it connects. -/
theorem scanPort_first_event_witness :
    scanPort 443 2000 [.connect, .timeout, .error] = scanPort 443 2000 [.connect] ∧
    scanPort 443 2000 [.connect] = .fulfilled { port := 443, status := .Open } ∧
    scanPort 443 2000 [.timeout] = .fulfilled { port := 443, status := .Closed } :=
  ⟨(scanPort_first_event 443 2000 .connect [.timeout, .error] (by decide) (by decide)
      (Or.inl rfl)).2.1,
   (scanPort_first_event 443 2000 .connect [] (by decide) (by decide) (Or.inl rfl)).1,
   (scanPort_first_event 443 2000 .timeout [.connect] (by decide) (by decide)
      (Or.inr (Or.inl rfl))).1⟩

/-- C5 as stated fails: for port 70000 the call is rejected with
`ERR_SOCKET_BAD_PORT`, and for timeout -1 with `ERR_OUT_OF_RANGE`; it does not
resolve to a record, whatever the socket would deliver. -/
theorem scanPort_bad_port :
    scanPort 70000 2000 [.timeout] = .rejected "ERR_SOCKET_BAD_PORT" ∧
    scanPort 70000 2000 [.timeout] ≠ .fulfilled { port := 70000, status := .Closed } ∧
    scanPort 80 (-1) [.connect] = .rejected "ERR_OUT_OF_RANGE" ∧
    scanPort 80 (-1) [.connect] ≠ .fulfilled { port := 80, status := .Open } := by
  decide

/-! ## Banner grabbing -/

/-- Connect events alone leave `banner` empty, the socket alive and the
Promise pending. -/
theorem grabBanner.run_connects (pre : List SocketEvent) (hpre : ∀ e ∈ pre, e = .connect)
    (s : BannerSocket) (hb : s.banner = "") (hd : s.destroyed = false) (hp : s.promise = none)
    (tail : List SocketEvent) :
    ∃ s1 : BannerSocket, s1.banner = "" ∧ s1.destroyed = false ∧ s1.promise = none ∧
      grabBanner.run s (pre ++ tail) = grabBanner.run s1 tail := by
  induction pre generalizing s with
  | nil => exact ⟨s, hb, hd, hp, rfl⟩
  | cons e pre ih =>
    have he : e = .connect := hpre e (List.mem_cons_self _ _)
    subst he
    have hrest : ∀ e ∈ pre, e = .connect := fun e h => hpre e (List.mem_cons_of_mem _ h)
    have hstep : grabBanner.run s (SocketEvent.connect :: (pre ++ tail)) =
        grabBanner.run (grabBanner.onEvent s .connect) (pre ++ tail) := by
      simp [grabBanner.run, hd]
    have hs : (grabBanner.onEvent s .connect).banner = "" ∧
        (grabBanner.onEvent s .connect).destroyed = false ∧
        (grabBanner.onEvent s .connect).promise = none := by
      simp only [grabBanner.onEvent]
      split <;> simp [hb, hd, hp]
    obtain ⟨s1, h1, h2, h3, h4⟩ := ih hrest _ hs.1 hs.2.1 hs.2.2
    exact ⟨s1, h1, h2, h3, by rw [List.cons_append, hstep, h4]⟩

theorem grabBanner.run_data (s : BannerSocket) (hb : s.banner = "") (hd : s.destroyed = false)
    (hp : s.promise = none) (chunk : String) (rest : List SocketEvent) :
    (grabBanner.run s (.data chunk :: rest)).promise = some (bannerOrNull (jsTrim chunk)) ∧
    (grabBanner.run s (.data chunk :: rest)).destroyed = true := by
  cases rest <;>
    simp [grabBanner.run, grabBanner.onEvent, hd, hb, hp, Promise.resolve]

theorem grabBanner.run_settled (s : BannerSocket) (v : Option String)
    (hp : s.promise = some v) (events : List SocketEvent) :
    (grabBanner.run s events).promise = some v := by
  induction events generalizing s with
  | nil =>
    unfold grabBanner.run
    split <;> simp [grabBanner.onEvent, hp, Promise.resolve]
  | cons e rest ih =>
    unfold grabBanner.run
    split
    · simp [grabBanner.onEvent, hp, Promise.resolve]
    · apply ih
      cases e <;> simp [grabBanner.onEvent, hp, Promise.resolve]
      split <;> simp [hp]

theorem grabBanner.run_fail (s : BannerSocket) (hb : s.banner = "") (hd : s.destroyed = false)
    (hp : s.promise = none) (e : SocketEvent) (he : e = .timeout ∨ e = .error ∨ e = .close)
    (rest : List SocketEvent) :
    (grabBanner.run s (e :: rest)).promise = some none := by
  have h1 : grabBanner.run s (e :: rest) = grabBanner.run (grabBanner.onEvent s e) rest := by
    simp [grabBanner.run, hd]
  rw [h1]
  apply grabBanner.run_settled
  rcases he with he | he | he <;> subst he <;>
    simp [grabBanner.onEvent, hp, hb, Promise.resolve, bannerOrNull]

/-- C6, as the code has it: on a `grabBanner` socket whose first event other
than connect is a chunk of data, the socket is destroyed at once and the call
returns the chunk trimmed of surrounding whitespace when that is non-empty,
and null when the chunk is all whitespace, whatever events follow (the chunk
`SSH-2.0-OpenSSH_8.9\r\n` gives `SSH-2.0-OpenSSH_8.9`); when that first event
is a timeout, an error or the closing of the connection, the call returns
null. -/
theorem grabBanner_first_event (pre : List SocketEvent) (hpre : ∀ e ∈ pre, e = .connect)
    (rest : List SocketEvent) :
    (∀ chunk : String,
      grabBanner (pre ++ .data chunk :: rest) =
        some (if jsTrim chunk = "" then none else some (jsTrim chunk)) ∧
      (grabBanner.run {} (pre ++ .data chunk :: rest)).destroyed = true) ∧
    grabBanner (pre ++ .timeout :: rest) = some none ∧
    grabBanner (pre ++ .error :: rest) = some none ∧
    grabBanner (pre ++ .close :: rest) = some none ∧
    grabBanner (pre ++ [.data "SSH-2.0-OpenSSH_8.9\r\n"]) = some (some "SSH-2.0-OpenSSH_8.9") := by
  have key : ∀ tail, ∃ s1 : BannerSocket, s1.banner = "" ∧ s1.destroyed = false ∧
      s1.promise = none ∧ grabBanner.run {} (pre ++ tail) = grabBanner.run s1 tail :=
    fun tail => grabBanner.run_connects pre hpre {} rfl rfl rfl tail
  have hdata : ∀ (chunk : String) (tail : List SocketEvent),
      grabBanner (pre ++ .data chunk :: tail) = some (bannerOrNull (jsTrim chunk)) ∧
      (grabBanner.run {} (pre ++ .data chunk :: tail)).destroyed = true := by
    intro chunk tail
    obtain ⟨s1, h1, h2, h3, h4⟩ := key (.data chunk :: tail)
    unfold grabBanner
    rw [h4]
    exact grabBanner.run_data s1 h1 h2 h3 chunk tail
  have hfail : ∀ e, (e = .timeout ∨ e = .error ∨ e = .close) →
      grabBanner (pre ++ e :: rest) = some none := by
    intro e he
    obtain ⟨s1, h1, h2, h3, h4⟩ := key (e :: rest)
    unfold grabBanner
    rw [h4]
    exact grabBanner.run_fail s1 h1 h2 h3 e he rest
  refine ⟨fun chunk => ?_, hfail _ (Or.inl rfl), hfail _ (Or.inr (Or.inl rfl)),
    hfail _ (Or.inr (Or.inr rfl)), ?_⟩
  · simpa [bannerOrNull] using hdata chunk rest
  · rw [(hdata _ []).1]
    decide

/-- C6, on a connection that is established, receives the SSH banner and then
times out, and on one that times out without data. -/
theorem grabBanner_first_event_witness :
    grabBanner [.connect, .data "SSH-2.0-OpenSSH_8.9\r\n", .timeout] =
      some (some "SSH-2.0-OpenSSH_8.9") ∧
    grabBanner [.connect, .timeout, .data "late"] = some none :=
  ⟨((grabBanner_first_event [.connect] (by simp) [.timeout]).1 "SSH-2.0-OpenSSH_8.9\r\n").1.trans
      (by decide),
   (grabBanner_first_event [.connect] (by simp) [.data "late"]).2.1⟩

/-- C6 as stated fails: on a chunk that is all whitespace `grabBanner`
returns null, not the trimmed chunk (the empty string). -/
theorem grabBanner_blank_chunk :
    grabBanner [.connect, .data "\r\n"] = some none ∧
    grabBanner [.connect, .data "\r\n"] ≠ some (some (jsTrim "\r\n")) := by
  decide

/-! ## Arrays and `Promise.all` -/

theorem jsSlice_natCast {α : Type} (xs : List α) (i c : Nat) :
    jsSlice xs (i : Int) ((i : Int) + (c : Int)) = (xs.drop i).take c := by
  unfold jsSlice
  have h1 : ¬ ((i : Int) < 0) := by omega
  have h2 : ¬ ((i : Int) + (c : Int) < 0) := by omega
  simp only [h1, h2, if_false]
  by_cases hi : i ≤ xs.length
  · have hk : (min (i : Int) (xs.length : Int)).toNat = i := by
      rw [min_eq_left (by exact_mod_cast hi)]; simp
    rw [hk]
    by_cases hc : i + c ≤ xs.length
    · have : (min ((i : Int) + c) (xs.length : Int) - min (i : Int) (xs.length : Int)).toNat
          = c := by
        rw [min_eq_left (by exact_mod_cast hc), min_eq_left (by exact_mod_cast hi)]; simp
      rw [this]
    · have hlen : (xs.drop i).length = xs.length - i := List.length_drop i xs
      have : (min ((i : Int) + c) (xs.length : Int) - min (i : Int) (xs.length : Int)).toNat
          = xs.length - i := by
        rw [min_eq_right (by omega), min_eq_left (by exact_mod_cast hi)]; omega
      rw [this, List.take_of_length_le (by omega), List.take_of_length_le (by omega)]
  · have hd : xs.drop i = [] := List.drop_eq_nil_of_le (by omega)
    have hk : (min (i : Int) (xs.length : Int)).toNat = xs.length := by
      rw [min_eq_right (by omega)]; simp
    rw [hk, hd, List.drop_length]
    simp

theorem allFilled_map_some {α : Type} (vals : List α) :
    allFilled (vals.map some) = some vals := by
  induction vals with
  | nil => rfl
  | cons v rest ih => simp [allFilled, ih]

theorem promiseAll.settle_length {α : Type} (promises : List (PromiseState α))
    (order : List Nat) (slots : List (Option α)) :
    (order.foldl (promiseAll.settle promises) slots).length = slots.length := by
  induction order generalizing slots with
  | nil => rfl
  | cons i rest ih =>
    rw [List.foldl_cons, ih]
    unfold promiseAll.settle
    split <;> simp

theorem promiseAll.settle_getElem? {α : Type} (vals : List α) (order : List Nat)
    (slots : List (Option α)) (hlen : slots.length = vals.length) (k : Nat)
    (hk : k < vals.length) :
    (order.foldl (promiseAll.settle (vals.map PromiseState.fulfilled)) slots)[k]? =
      if k ∈ order then some (vals[k]?) else slots[k]? := by
  induction order generalizing slots with
  | nil => simp
  | cons i rest ih =>
    have hl : (promiseAll.settle (vals.map PromiseState.fulfilled) slots i).length
        = vals.length := by
      unfold promiseAll.settle
      split <;> simp [hlen]
    rw [List.foldl_cons, ih _ hl]
    by_cases hr : k ∈ rest
    · simp [hr]
    · simp only [hr, if_false, List.mem_cons, or_false]
      by_cases hki : k = i
      · subst hki
        have hv : (vals.map PromiseState.fulfilled).get? k = some (.fulfilled vals[k]) := by
          simp [List.getElem?_eq_getElem hk]
        simp only [promiseAll.settle, hv, if_true]
        rw [List.getElem?_set_self (by omega)]
        simp [List.getElem?_eq_getElem hk]
      · simp only [hki, if_false]
        unfold promiseAll.settle
        split
        · rw [List.getElem?_set_ne (by omega)]
        · rfl

theorem promiseAll.no_rejection {α : Type} (vals : List α) :
    (vals.map PromiseState.fulfilled).findSome? PromiseState.rejection? = none := by
  induction vals with
  | nil => rfl
  | cons v rest ih => simp [List.findSome?_cons, PromiseState.rejection?, ih]

/-- A `Promise.all` over promises that are all fulfilled gives their values in
index order, in whatever order they settle. -/
theorem promiseAll_eq {α : Type} (vals : List α) (order : List Nat)
    (horder : ∀ k, k < vals.length → k ∈ order) :
    promiseAll (vals.map PromiseState.fulfilled) order = .fulfilled vals := by
  unfold promiseAll
  have hslots : order.foldl (promiseAll.settle (vals.map PromiseState.fulfilled))
      (List.replicate (vals.map PromiseState.fulfilled).length none) = vals.map some := by
    apply List.ext_getElem?
    intro k
    by_cases hk : k < vals.length
    · rw [promiseAll.settle_getElem? vals order _ (by simp) k hk]
      simp [horder k hk, List.getElem?_eq_getElem hk]
    · have h1 : (order.foldl (promiseAll.settle (vals.map PromiseState.fulfilled))
          (List.replicate (vals.map PromiseState.fulfilled).length none)).length ≤ k := by
        rw [promiseAll.settle_length]; simp; omega
      rw [List.getElem?_eq_none h1, List.getElem?_eq_none (by simp; omega)]
  rw [promiseAll.no_rejection, hslots, allFilled_map_some]
  rfl

/-! ## The port array -/

theorem scanPorts.range_eq (endPort : Int) (fuel : Nat) (p : Int)
    (h : fuel ≠ 0 → (p : Int) + fuel ≤ endPort + 1) :
    scanPorts.range endPort fuel p = (List.range fuel).map fun (k : Nat) => p + (k : Int) := by
  induction fuel generalizing p with
  | zero => rfl
  | succ n ih =>
    have h1 := h (Nat.succ_ne_zero n)
    have hp : p ≤ endPort := by push_cast at h1; omega
    rw [scanPorts.range, if_pos hp, ih (p + 1) (by intro _; push_cast at h1 ⊢; omega),
      List.range_succ_eq_map, List.map_cons, List.map_map]
    simp only [Nat.cast_zero, add_zero, List.cons.injEq, true_and]
    apply List.map_congr_left
    intro k _
    simp only [Function.comp_apply, Nat.cast_succ]
    omega

/-- The array `ports` of `scanPorts` is `startPort, startPort + 1, ...`, of
length `endPort - startPort + 1` (empty when that is negative). -/
theorem scanPorts.ports_eq (startPort endPort : Int) :
    scanPorts.ports startPort endPort =
      (List.range (endPort - startPort + 1).toNat).map
        fun (k : Nat) => startPort + (k : Int) := by
  unfold scanPorts.ports
  apply scanPorts.range_eq
  omega

theorem scanPorts.mem_ports (startPort endPort p : Int) :
    p ∈ scanPorts.ports startPort endPort ↔ startPort ≤ p ∧ p ≤ endPort := by
  rw [scanPorts.ports_eq]
  simp only [List.mem_map, List.mem_range]
  constructor
  · rintro ⟨k, hk, rfl⟩
    omega
  · rintro ⟨h1, h2⟩
    exact ⟨(p - startPort).toNat, by omega, by omega⟩

theorem scanPorts.ports_length (startPort endPort : Int) :
    (scanPorts.ports startPort endPort).length = (endPort - startPort + 1).toNat := by
  rw [scanPorts.ports_eq]; simp

theorem scanPorts.ports_pairwise (startPort endPort : Int) :
    (scanPorts.ports startPort endPort).Pairwise (· < ·) := by
  rw [scanPorts.ports_eq, List.pairwise_map]
  have h : (List.range (endPort - startPort + 1).toNat).Pairwise (· < ·) :=
    List.pairwise_lt_range _
  exact h.imp (by intro a b hab; omega)

theorem scanPorts.ports_nodup (startPort endPort : Int) :
    (scanPorts.ports startPort endPort).Nodup :=
  (scanPorts.ports_pairwise startPort endPort).imp (fun h => ne_of_lt h)

/-! ## Batches -/

theorem batchesOf_nil {α : Type} (c : Nat) (hc : 1 ≤ c) : batchesOf c ([] : List α) = [] := by
  have h : (c - 1) / c = 0 := Nat.div_eq_of_lt (by omega)
  simp [batchesOf, h]

theorem batchCount_succ (n c : Nat) (hc : 1 ≤ c) (hn : 1 ≤ n) :
    (n + c - 1) / c = (n - c + c - 1) / c + 1 := by
  have h1 : n + c - 1 = (n - 1) + c := by omega
  rw [h1, Nat.add_div_right _ (by omega)]
  congr 1
  by_cases h : c ≤ n
  · congr 1; omega
  · rw [Nat.div_eq_of_lt (by omega), Nat.div_eq_of_lt (by omega)]

theorem batchesOf_cons {α : Type} (c : Nat) (hc : 1 ≤ c) (l : List α) (hl : l ≠ []) :
    batchesOf c l = l.take c :: batchesOf c (l.drop c) := by
  have hn : 1 ≤ l.length := List.length_pos.2 hl
  unfold batchesOf
  rw [batchCount_succ l.length c hc hn, List.length_drop, List.range_succ_eq_map,
    List.map_cons, List.map_map]
  simp only [Nat.zero_mul, List.drop_zero, List.cons.injEq, true_and]
  apply List.map_congr_left
  intro k _
  simp only [Function.comp_apply, List.drop_drop]
  congr 2
  rw [Nat.succ_mul]; omega

theorem batchesOf_join {α : Type} (c : Nat) (hc : 1 ≤ c) (l : List α) :
    (batchesOf c l).flatten = l := by
  have key : ∀ n (l : List α), l.length = n → (batchesOf c l).flatten = l := by
    intro n
    induction n using Nat.strong_induction_on with
    | _ n ih =>
      intro l h
      by_cases hl : l = []
      · subst hl; rw [batchesOf_nil c hc]; rfl
      · have hn : 1 ≤ l.length := List.length_pos.2 hl
        rw [batchesOf_cons c hc l hl, List.flatten_cons,
          ih (l.drop c).length (by rw [List.length_drop]; omega) (l.drop c) rfl,
          List.take_append_drop]
  exact key l.length l rfl

theorem batchesOf_length {α : Type} (c : Nat) (l : List α) :
    (batchesOf c l).length = (l.length + c - 1) / c := by
  simp [batchesOf]

theorem batchesOf_getElem? {α : Type} (c : Nat) (l : List α) (k : Nat)
    (hk : k < (batchesOf c l).length) :
    (batchesOf c l)[k]? = some ((l.drop (k * c)).take c) := by
  rw [batchesOf_length] at hk
  simp [batchesOf, List.getElem?_range hk]

theorem batch_start_lt {c n k : Nat} (hc : 1 ≤ c) (hk : k < (n + c - 1) / c) : k * c < n := by
  have h := (Nat.le_div_iff_mul_le (by omega : 0 < c)).1 (Nat.succ_le_of_lt hk)
  rw [Nat.succ_mul] at h
  omega

theorem batch_full {c n k : Nat} (hc : 1 ≤ c) (hk : k + 1 < (n + c - 1) / c) :
    k * c + c ≤ n := by
  have h := (Nat.le_div_iff_mul_le (by omega : 0 < c)).1 (Nat.succ_le_of_lt hk)
  rw [Nat.succ_mul, Nat.succ_mul] at h
  omega

/-! ## The scan loop -/

theorem scanPort.run_port (port : Int) (events : List SocketEvent) (s : ProbeSocket)
    (hs : ∀ r, s.promise = some r → r.port = port) :
    ∀ r, (scanPort.run port s events).promise = some r → r.port = port := by
  induction events generalizing s with
  | nil => exact hs
  | cons e rest ih =>
    apply ih
    intro r hr
    cases hp : s.promise with
    | none =>
      cases e <;> simp [scanPort.onEvent, hp, Promise.resolve] at hr <;> (subst hr; rfl)
    | some w =>
      have hw := hs w hp
      cases e <;> simp [scanPort.onEvent, hp, Promise.resolve] at hr <;> (subst hr; exact hw)

/-- The record `scanPort` is fulfilled with carries the port it was called
with. -/
theorem scanPort_port (port timeout : Int) (events : List SocketEvent) (r : ProbeResult)
    (h : scanPort port timeout events = .fulfilled r) : r.port = port := by
  unfold scanPort at h
  split at h
  · cases h
  · split at h
    · cases h
    · cases hp : (scanPort.run port {} events).promise with
      | none => simp [hp, PromiseState.ofPromise] at h
      | some w =>
        simp only [hp, PromiseState.ofPromise, PromiseState.fulfilled.injEq] at h
        subst h
        exact scanPort.run_port port events {} (by intro r hr; cases hr) w hp

theorem Network.scanPort_of_outcome (net : Network) (timeout p : Int) (status : Status)
    (h : net.outcome timeout p = some status) :
    scanPort p timeout (net.probe p) = .fulfilled { port := p, status := status } := by
  unfold Network.outcome at h
  cases hr : scanPort p timeout (net.probe p) with
  | pending => simp [hr] at h
  | rejected code => simp [hr] at h
  | fulfilled r =>
    have hp := scanPort_port p timeout _ r hr
    simp only [hr, Option.some.injEq] at h
    rw [← hp, ← h]

theorem Network.scanPort_eq_result (net : Network) (timeout p : Int)
    (h : net.outcome timeout p ≠ none) :
    scanPort p timeout (net.probe p) = .fulfilled (net.result timeout p) := by
  cases ho : net.outcome timeout p with
  | none => exact absurd ho h
  | some status =>
    rw [net.scanPort_of_outcome timeout p status ho]
    simp [Network.result, ho]

/-- A probe that is fulfilled was given a port in 0..65535 and a timeout that
is not negative. -/
theorem Network.valid_of_outcome (net : Network) (timeout p : Int)
    (h : net.outcome timeout p ≠ none) : 0 ≤ timeout ∧ 0 ≤ p ∧ p ≤ 65535 := by
  by_contra hbad
  have hrej := scanPort_rejected p timeout (net.probe p) (by omega)
  apply h
  unfold Network.outcome
  rcases hrej with hrej | hrej <;> rw [hrej]

theorem ScanState.extend_nil (st : ScanState) (net : Network) (options : ScanOptions) :
    st.extend net options [] = st := by
  simp [ScanState.extend, Network.openPorts]

theorem ScanState.extend_append (st : ScanState) (net : Network) (options : ScanOptions)
    (a b : List Int) :
    (st.extend net options a).extend net options b = st.extend net options (a ++ b) := by
  cases hb : options.bannerGrab <;>
    simp [ScanState.extend, Network.openPorts, List.filterMap_append, List.filter_append, hb,
      Nat.add_assoc]

theorem scanPorts.report_eq (net : Network) (options : ScanOptions) (st : ScanState) (p : Int)
    (hp : net.outcome options.timeout p ≠ none)
    (hb : options.bannerGrab = true → net.outcome options.timeout p = some .Open →
      grabBanner (net.banner p) ≠ none) :
    scanPorts.report net options st (net.result options.timeout p) =
      .fulfilled (st.extend net options [p]) := by
  cases ho : net.outcome options.timeout p with
  | none => exact absurd ho hp
  | some status =>
    cases status with
    | Open =>
      cases hbg : options.bannerGrab with
      | false =>
        simp [scanPorts.report, pushOpen, Network.result, ho, hbg, ScanState.extend,
          Network.record, Network.openPorts]
      | true =>
        cases hg : grabBanner (net.banner p) with
        | none => exact absurd hg (hb hbg ho)
        | some banner =>
          simp [scanPorts.report, pushOpen, Network.result, ho, hbg, hg, ScanState.extend,
            Network.record, Network.openPorts]
    | Closed =>
      cases hsc : options.showClosed <;>
        simp [scanPorts.report, Network.result, ho, hsc, ScanState.extend,
          Network.record, Network.openPorts]

theorem scanPorts.reportAll_eq (net : Network) (options : ScanOptions) (batch : List Int)
    (hp : ∀ p ∈ batch, net.outcome options.timeout p ≠ none)
    (hb : options.bannerGrab = true →
      ∀ p ∈ batch, net.outcome options.timeout p = some .Open →
        grabBanner (net.banner p) ≠ none) (st : ScanState) :
    scanPorts.reportAll net options st (batch.map (net.result options.timeout)) =
      .fulfilled (st.extend net options batch) := by
  induction batch generalizing st with
  | nil => simp [scanPorts.reportAll, ScanState.extend_nil]
  | cons p rest ih =>
    rw [List.map_cons, scanPorts.reportAll,
      scanPorts.report_eq net options st p (hp p (List.mem_cons_self _ _))
        (fun h => hb h p (List.mem_cons_self _ _))]
    simp only
    rw [ih (fun q hq => hp q (List.mem_cons_of_mem _ hq))
      (fun h q hq => hb h q (List.mem_cons_of_mem _ hq)), ScanState.extend_append]
    rfl

theorem Network.probes_eq (net : Network) (timeout : Int) (batch : List Int)
    (hp : ∀ p ∈ batch, net.outcome timeout p ≠ none) :
    (batch.map fun port => scanPort port timeout (net.probe port)) =
      (batch.map (net.result timeout)).map PromiseState.fulfilled := by
  rw [List.map_map]
  apply List.map_congr_left
  intro p hmem
  exact net.scanPort_eq_result timeout p (hp p hmem)

/-- From index `i`, with enough fuel, the batch loop of `scanPorts` handles the
remaining ports in order and launches them in slices of `c` ports. -/
theorem scanPorts.loop_eq (net : Network) (options : ScanOptions) (ports : List Int) (c : Nat)
    (hc : 1 ≤ c) (hopt : options.concurrency = (c : Int)) (hs : net.Settles options ports)
    (fuel i : Nat) (st : ScanState) (hfuel : ports.length - i < fuel) :
    scanPorts.loop net options ports fuel (i : Int) st =
      .fulfilled { st.extend net options (ports.drop i) with
        launched := st.launched ++ batchesOf c (ports.drop i) } := by
  induction fuel generalizing i st with
  | zero => omega
  | succ fuel ih =>
    unfold scanPorts.loop
    by_cases hi : i < ports.length
    · have hi' : (i : Int) < (ports.length : Int) := by exact_mod_cast hi
      have hsub : ∀ p ∈ (ports.drop i).take c, p ∈ ports := fun p hp =>
        List.mem_of_mem_drop (List.mem_of_mem_take hp)
      have hne : ports.drop i ≠ [] := by
        intro h
        have := congrArg List.length h
        rw [List.length_drop] at this
        simp at this
        omega
      have hnext : (i : Int) + options.concurrency = ((i + c : Nat) : Int) := by
        rw [hopt]; push_cast; rfl
      simp only [hi', if_true]
      rw [hnext]
      have hslice : jsSlice ports (i : Int) (((i + c : Nat) : Int)) = (ports.drop i).take c := by
        rw [Nat.cast_add]; exact jsSlice_natCast ports i c
      rw [hslice, net.probes_eq _ _ (fun p hp => hs.probe p (hsub p hp)),
        promiseAll_eq _ _ (by
          intro k hk
          apply hs.order
          rw [hopt]
          have : k < c := by
            simp only [List.length_map, List.length_take] at hk
            omega
          exact_mod_cast this)]
      simp only
      rw [scanPorts.reportAll_eq net options _ (fun p hp => hs.probe p (hsub p hp))
        (fun h p hp => hs.banner h p (hsub p hp))]
      simp only
      rw [ih (i + c) _ (by omega), ScanState.extend_append, batchesOf_cons c hc _ hne]
      have hd : ports.drop (i + c) = (ports.drop i).drop c := by rw [List.drop_drop]
      rw [hd, List.take_append_drop]
      simp [ScanState.extend]
    · have hi' : ¬ ((i : Int) < (ports.length : Int)) := by
        intro h; exact hi (by exact_mod_cast h)
      have hd : ports.drop i = [] := List.drop_eq_nil_of_le (by omega)
      simp only [hi', if_false, hd, ScanState.extend_nil, batchesOf_nil c hc, List.append_nil]

/-- With `concurrency ≤ 0` the index never passes the end of a non-empty port
array: the batch loop is never fulfilled, whatever the fuel. -/
theorem scanPorts.loop_diverges (net : Network) (options : ScanOptions) (ports : List Int)
    (hc : options.concurrency ≤ 0) (fuel : Nat) (i : Int) (st st' : ScanState)
    (hi : i < ports.length) :
    scanPorts.loop net options ports fuel i st ≠ .fulfilled st' := by
  induction fuel generalizing i st with
  | zero => intro h; cases h
  | succ fuel ih =>
    unfold scanPorts.loop
    simp only [hi, if_true]
    split
    · intro h; cases h
    · intro h; cases h
    · split
      · intro h; cases h
      · intro h; cases h
      · exact ih _ _ (by omega)

/-- With `concurrency ≥ 1` and every awaited Promise settling, the batch loop
of `scanPorts` returns, having handled every port in order. -/
theorem scanPorts.schedule_eq (net : Network) (options : ScanOptions) (ports : List Int)
    (hc : 1 ≤ options.concurrency) (hs : net.Settles options ports) :
    scanPorts.schedule net options ports =
      .fulfilled { ScanState.extend {} net options ports with
        launched := batchesOf options.concurrency.toNat ports } := by
  have h := scanPorts.loop_eq net options ports options.concurrency.toNat (by omega) (by omega)
    hs (ports.length + 1) 0 {} (by omega)
  simpa [scanPorts.schedule] using h

/-! ## Range scan -/

/-- With `concurrency ≥ 1` and every awaited Promise settling, `scanPorts`
returns, and what it returns is given by the closed forms. -/
theorem scanPorts_eq (net : Network) (startPort endPort : Int) (options : ScanOptions)
    (hc : 1 ≤ options.concurrency)
    (hs : net.Settles options (scanPorts.ports startPort endPort)) :
    scanPorts net startPort endPort options =
      .fulfilled
        { results := (scanPorts.ports startPort endPort).filterMap (net.record options)
          summary :=
            { openCount :=
                (net.openPorts options.timeout (scanPorts.ports startPort endPort)).length
              closedCount := endPort - startPort + 1 -
                (net.openPorts options.timeout (scanPorts.ports startPort endPort)).length
              totalPorts := endPort - startPort + 1 }
          launched := batchesOf options.concurrency.toNat (scanPorts.ports startPort endPort)
          grabbed :=
            if options.bannerGrab then
              net.openPorts options.timeout (scanPorts.ports startPort endPort)
            else [] } := by
  unfold scanPorts
  simp only [scanPorts.schedule_eq net options _ hc hs]
  simp [ScanState.extend, printSummary]

theorem Network.record_port (net : Network) (options : ScanOptions) (p : Int)
    (r : AnnotatedResult) (h : net.record options p = some r) :
    r.port = p ∧ net.outcome options.timeout p = some r.status := by
  unfold Network.record at h
  split at h
  · simp only [Option.some.injEq] at h
    subst h
    exact ⟨rfl, by assumption⟩
  · split at h
    · simp only [Option.some.injEq] at h
      subst h
      exact ⟨rfl, by assumption⟩
    · cases h
  · cases h

theorem Network.record_isSome (net : Network) (options : ScanOptions) (p : Int) :
    (net.record options p).isSome = true ↔
      (net.outcome options.timeout p = some .Open ∨
        (net.outcome options.timeout p = some .Closed ∧ options.showClosed = true)) := by
  unfold Network.record
  cases ho : net.outcome options.timeout p with
  | none => simp
  | some status =>
    cases status <;> cases hsc : options.showClosed <;> simp

theorem Network.map_port_record (net : Network) (options : ScanOptions) (ports : List Int) :
    (ports.filterMap (net.record options)).map (·.port) =
      ports.filter fun p => (net.record options p).isSome := by
  induction ports with
  | nil => rfl
  | cons p rest ih =>
    cases hr : net.record options p with
    | none => simp [List.filterMap_cons, List.filter_cons, hr, ih]
    | some r =>
      have hp := (net.record_port options p r hr).1
      simp [List.filterMap_cons, List.filter_cons, hr, ih, hp]

/-- In a list without repetition, the records of port `p` are the record of
`p` when `p` is in the list, and none otherwise. -/
theorem Network.records_of_port (net : Network) (options : ScanOptions) (ports : List Int)
    (hnd : ports.Nodup) (p : Int) :
    (ports.filterMap (net.record options)).filter (fun r => r.port = p) =
      if p ∈ ports then (net.record options p).toList else [] := by
  induction ports with
  | nil => rfl
  | cons q rest ih =>
    rw [List.nodup_cons] at hnd
    have hrec : ∀ r, net.record options q = some r → r.port = q :=
      fun r hr => (net.record_port options q r hr).1
    by_cases hpq : p = q
    · subst hpq
      have hrest : (rest.filterMap (net.record options)).filter (fun r => r.port = p) = [] := by
        rw [ih hnd.2, if_neg hnd.1]
      cases hr : net.record options p with
      | none => simp [List.filterMap_cons, hr, hrest]
      | some r => simp [List.filterMap_cons, hr, hrest, List.filter_cons, hrec r hr]
    · have hmem : (p ∈ q :: rest) ↔ p ∈ rest := by simp [hpq]
      cases hr : net.record options q with
      | none => simp only [List.filterMap_cons, hr, ih hnd.2, hmem]
      | some r =>
        have hne : ¬ (r.port = p) := by rw [hrec r hr]; exact fun h => hpq h.symm
        simp only [List.filterMap_cons, hr, List.filter_cons, hne, decide_False, ih hnd.2, hmem]
        simp

/-- C1: for every range, every `concurrency ≥ 1` and every target whose
probes settle, in whatever order they settle within a batch, `scanPorts`
returns, and the ports of the returned records form a sublist of the port
array `startPort, startPort + 1, ..., endPort`, hence are strictly
increasing. -/
theorem scanPorts_port_order (net : Network) (startPort endPort : Int) (options : ScanOptions)
    (hc : 1 ≤ options.concurrency)
    (hs : net.Settles options (scanPorts.ports startPort endPort)) :
    ∃ run, scanPorts net startPort endPort options = .fulfilled run ∧
      (run.results.map (·.port)).Sublist (scanPorts.ports startPort endPort) ∧
      scanPorts.ports startPort endPort =
        ((List.range (endPort - startPort + 1).toNat).map
          fun (k : Nat) => startPort + (k : Int)) ∧
      (run.results.map (·.port)).Pairwise (· < ·) := by
  refine ⟨_, scanPorts_eq net startPort endPort options hc hs, ?_,
    scanPorts.ports_eq startPort endPort, ?_⟩
  · simp only [Network.map_port_record]
    exact List.filter_sublist _
  · simp only [Network.map_port_record]
    exact (scanPorts.ports_pairwise startPort endPort).sublist (List.filter_sublist _)

/-- C2: for every range, every `concurrency ≥ 1` and every target whose
probes settle, `scanPorts` returns a list in which a port of the range has a
record exactly when its probe was Open, or Closed with `showClosed` set; such
a port has exactly one record, the record carries the status of the port's
probe, and every record is of a port of the range. -/
theorem scanPorts_records (net : Network) (startPort endPort : Int) (options : ScanOptions)
    (hc : 1 ≤ options.concurrency)
    (hs : net.Settles options (scanPorts.ports startPort endPort)) :
    ∃ run, scanPorts net startPort endPort options = .fulfilled run ∧
      (∀ p, startPort ≤ p → p ≤ endPort →
        ((∃ r ∈ run.results, r.port = p) ↔
          (net.outcome options.timeout p = some .Open ∨
            (net.outcome options.timeout p = some .Closed ∧ options.showClosed = true))) ∧
        (run.results.filter (fun r => r.port = p)).length =
          (if net.outcome options.timeout p = some .Open ∨
              (net.outcome options.timeout p = some .Closed ∧ options.showClosed = true)
            then 1 else 0)) ∧
      (∀ r ∈ run.results, startPort ≤ r.port ∧ r.port ≤ endPort ∧
        scanPort r.port options.timeout (net.probe r.port) =
          .fulfilled { port := r.port, status := r.status }) := by
  refine ⟨_, scanPorts_eq net startPort endPort options hc hs, ?_, ?_⟩
  · intro p h1 h2
    have hmem : p ∈ scanPorts.ports startPort endPort :=
      (scanPorts.mem_ports startPort endPort p).2 ⟨h1, h2⟩
    have hfil := net.records_of_port options _ (scanPorts.ports_nodup startPort endPort) p
    rw [if_pos hmem] at hfil
    have hiff := net.record_isSome options p
    constructor
    · constructor
      · rintro ⟨r, hr, hp⟩
        have : r ∈ (net.record options p).toList := by
          rw [← hfil]; exact List.mem_filter.2 ⟨hr, by simpa using hp⟩
        apply hiff.1
        cases hrec : net.record options p with
        | none => simp [hrec] at this
        | some _ => rfl
      · intro h
        have hsome := hiff.2 h
        obtain ⟨r, hr⟩ := Option.isSome_iff_exists.1 hsome
        have : r ∈ (scanPorts.ports startPort endPort).filterMap (net.record options) :=
          List.mem_filterMap.2 ⟨p, hmem, hr⟩
        exact ⟨r, this, (net.record_port options p r hr).1⟩
    · simp only [hfil]
      by_cases h : net.outcome options.timeout p = some .Open ∨
          (net.outcome options.timeout p = some .Closed ∧ options.showClosed = true)
      · obtain ⟨r, hr⟩ := Option.isSome_iff_exists.1 (hiff.2 h)
        simp [h, hr]
      · have hnone : net.record options p = none := by
          cases hrec : net.record options p with
          | none => rfl
          | some r => exact absurd (hiff.1 (by simp [hrec])) h
        simp [h, hnone]
  · intro r hr
    obtain ⟨p, hp, hrec⟩ := List.mem_filterMap.1 hr
    obtain ⟨hport, hout⟩ := net.record_port options p r hrec
    have hrange := (scanPorts.mem_ports startPort endPort p).1 hp
    rw [hport]
    exact ⟨hrange.1, hrange.2, net.scanPort_of_outcome options.timeout p r.status hout⟩

/-! ## The example targets -/

theorem lateFirst_banner : grabBanner [.connect, .data "hello\n"] ≠ none := by decide

theorem noBanner_banner : grabBanner [.connect, .timeout] ≠ none := by decide

theorem lateFirst_outcome (timeout p : Int) (ht : 0 ≤ timeout) (hp : 0 ≤ p ∧ p ≤ 65535) :
    lateFirst.outcome timeout p = some (if p = 80 then .Open else .Closed) := by
  have h1 : ¬ (timeout < 0) := by omega
  have h2 : ¬ (p < 0 ∨ 65535 < p) := by omega
  by_cases h : p = 80
  · subst h
    simp [Network.outcome, lateFirst, scanPort, h1, PromiseState.ofPromise, scanPort.run,
      scanPort.onEvent, Promise.resolve]
  · simp [Network.outcome, lateFirst, h, scanPort, h1, h2, PromiseState.ofPromise,
      scanPort.run, scanPort.onEvent, Promise.resolve]

theorem noBanner_outcome (timeout p : Int) (ht : 0 ≤ timeout) (hp : 0 ≤ p ∧ p ≤ 65535) :
    noBanner.outcome timeout p = some (if p = 80 then .Open else .Closed) :=
  lateFirst_outcome timeout p ht hp

/-- Every probe and banner grab on `lateFirst` settles, for ports in 0..65535,
a timeout that is not negative and batches of at most ten ports. -/
theorem lateFirst_settles (options : ScanOptions) (ports : List Int)
    (hc : options.concurrency ≤ 10) (ht : 0 ≤ options.timeout)
    (hp : ∀ p ∈ ports, 0 ≤ p ∧ p ≤ 65535) : lateFirst.Settles options ports where
  probe := by intro p hmem; rw [lateFirst_outcome _ p ht (hp p hmem)]; simp
  banner := by intro _ p _ _; exact lateFirst_banner
  order := by
    intro i k hk
    have hk10 : k < 10 := by omega
    simp only [lateFirst]
    interval_cases k <;> decide

/-- Every probe and banner grab on `noBanner` settles, for ports in 0..65535,
a timeout that is not negative and batches of at most ten ports. -/
theorem noBanner_settles (options : ScanOptions) (ports : List Int)
    (hc : options.concurrency ≤ 10) (ht : 0 ≤ options.timeout)
    (hp : ∀ p ∈ ports, 0 ≤ p ∧ p ≤ 65535) : noBanner.Settles options ports where
  probe := by intro p hmem; rw [noBanner_outcome _ p ht (hp p hmem)]; simp
  banner := by intro _ p _ _; exact noBanner_banner
  order := by
    intro i k hk
    have hk10 : k < 10 := by omega
    simp only [noBanner]
    interval_cases k <;> decide

/-- C1, on ports 80 to 84 in batches of two whose second probe settles first:
the records come out in port order. -/
theorem scanPorts_port_order_witness :
    ∃ run, scanPorts lateFirst 80 84 { concurrency := 2, showClosed := true } =
        .fulfilled run ∧
      (run.results.map (·.port)).Sublist (scanPorts.ports 80 84) ∧
      scanPorts.ports 80 84 =
        ((List.range ((84 : Int) - 80 + 1).toNat).map fun (k : Nat) => (80 : Int) + (k : Int)) ∧
      (run.results.map (·.port)).Pairwise (· < ·) :=
  scanPorts_port_order lateFirst 80 84 { concurrency := 2, showClosed := true } (by decide)
    (lateFirst_settles _ _ (by decide) (by decide) (by decide))

/-- C2, on the scenario of the specification: ports 80 and 81, a listener on
80 only, `concurrency` 10.  Without `showClosed` the result is the record of
port 80, Open; with it, that record followed by the record of port 81,
Closed. -/
theorem scanPorts_records_witness :
    (∃ run, scanPorts lateFirst 80 81 { concurrency := 10 } = .fulfilled run ∧
      (run.results.filter (fun r => r.port = 80)).length = 1 ∧
      (run.results.filter (fun r => r.port = 81)).length = 0) ∧
    (scanPorts lateFirst 80 81 { concurrency := 10 }).map (·.results) =
      .fulfilled [{ port := 80, status := .Open, service := some "HTTP", banner := none }] ∧
    (scanPorts lateFirst 80 81 { concurrency := 10, showClosed := true }).map (·.results) =
      .fulfilled [{ port := 80, status := .Open, service := some "HTTP", banner := none },
                  { port := 81, status := .Closed }] := by
  refine ⟨?_, by decide, by decide⟩
  obtain ⟨run, hrun, hrec, _⟩ :=
    scanPorts_records lateFirst 80 81 { concurrency := 10 } (by decide)
      (lateFirst_settles _ _ (by decide) (by decide) (by decide))
  refine ⟨run, hrun, ?_, ?_⟩
  · rw [(hrec 80 (by decide) (by decide)).2,
      lateFirst_outcome _ 80 (by decide) (by decide)]
    simp
  · rw [(hrec 81 (by decide) (by decide)).2,
      lateFirst_outcome _ 81 (by decide) (by decide)]
    simp

/-! ## Batching -/

theorem batchCount_le_iff (n c m : Nat) (hc : 1 ≤ c) : (n + c - 1) / c ≤ m ↔ n ≤ m * c := by
  rw [Nat.div_le_iff_le_mul_add_pred (by omega), Nat.mul_comm c m]
  omega

theorem batchCount_eq_ceil (n c : Nat) (hc : 1 ≤ c) :
    (n + c - 1) / c = ⌈(n : ℚ) / (c : ℚ)⌉₊ := by
  apply eq_of_forall_ge_iff
  intro m
  have hcq : (0 : ℚ) < (c : ℚ) := by exact_mod_cast hc
  rw [batchCount_le_iff n c m hc, Nat.ceil_le, div_le_iff₀ hcq]
  exact_mod_cast Iff.rfl

/-- C4: for every port array of length `N` and every integer `concurrency`
`C ≥ 1`, the batch loop of `scanPorts` returns after launching exactly
`⌈N / C⌉` batches; batch `k` is `ports.slice(k * C, k * C + C)`; every batch is
non-empty and has at most `C` ports, every batch but the last has exactly `C`;
and the batches concatenated in launch order are the port array, so that each
port is probed exactly once. -/
theorem scanPorts_batches (net : Network) (options : ScanOptions) (ports : List Int) (C : Nat)
    (hC : 1 ≤ C) (hopt : options.concurrency = (C : Int)) (hs : net.Settles options ports) :
    ∃ st, scanPorts.schedule net options ports = .fulfilled st ∧
      st.launched.length = ⌈(ports.length : ℚ) / (C : ℚ)⌉₊ ∧
      st.launched.length = (ports.length + C - 1) / C ∧
      (∀ k, k < st.launched.length →
        st.launched[k]? =
          some (jsSlice ports ((k : Int) * C) ((k : Int) * C + options.concurrency))) ∧
      (∀ b ∈ st.launched, b ≠ [] ∧ b.length ≤ C) ∧
      (∀ k b, k + 1 < st.launched.length → st.launched[k]? = some b → b.length = C) ∧
      st.launched.flatten = ports := by
  have hc : 1 ≤ options.concurrency := by omega
  have hto : options.concurrency.toNat = C := by omega
  have hget : ∀ k, k < (batchesOf C ports).length →
      (batchesOf C ports)[k]? = some ((ports.drop (k * C)).take C) :=
    fun k hk => batchesOf_getElem? C ports k hk
  refine ⟨_, scanPorts.schedule_eq net options ports hc hs, ?_, ?_, ?_, ?_, ?_, ?_⟩
  · simp only [hto, batchesOf_length]
    exact batchCount_eq_ceil _ _ hC
  · simp only [hto, batchesOf_length]
  · intro k hk
    simp only [hto] at hk ⊢
    rw [hget k hk, hopt]
    have := jsSlice_natCast ports (k * C) C
    push_cast at this
    rw [this]
  · intro b hb
    simp only [hto] at hb
    obtain ⟨k, hk, hkb⟩ := List.getElem_of_mem hb
    have hk' := hk
    rw [batchesOf_length] at hk'
    have hlt := batch_start_lt hC hk'
    have h1 := hget k hk
    rw [List.getElem?_eq_getElem hk, hkb] at h1
    simp only [Option.some.injEq] at h1
    subst h1
    constructor
    · intro h
      have := congrArg List.length h
      simp only [List.length_take, List.length_drop, List.length_nil] at this
      omega
    · simp only [List.length_take, List.length_drop]
      omega
  · intro k b hk hb
    simp only [hto] at hk hb
    have hk1 : k < (batchesOf C ports).length := by omega
    rw [hget k hk1] at hb
    simp only [Option.some.injEq] at hb
    subst hb
    rw [batchesOf_length] at hk
    have := batch_full hC hk
    simp only [List.length_take, List.length_drop]
    omega
  · simp only [hto]
    exact batchesOf_join C hC ports

/-- C4, on seven ports in batches of three: the batches are three, of sizes 3,
3 and 1. -/
theorem scanPorts_batches_witness :
    (∃ st, scanPorts.schedule lateFirst { concurrency := 3 } [1, 2, 3, 4, 5, 6, 7] =
        .fulfilled st ∧
      st.launched.length = 3 ∧ st.launched.flatten = [1, 2, 3, 4, 5, 6, 7]) ∧
    (scanPorts.schedule lateFirst { concurrency := 3 } [1, 2, 3, 4, 5, 6, 7]).map (·.launched) =
      .fulfilled [[1, 2, 3], [4, 5, 6], [7]] := by
  refine ⟨?_, by decide⟩
  obtain ⟨st, hst, _, hlen, _, _, _, hjoin⟩ :=
    scanPorts_batches lateFirst { concurrency := 3 } [1, 2, 3, 4, 5, 6, 7] 3 (by decide) rfl
      (lateFirst_settles _ _ (by decide) (by decide) (by decide))
  exact ⟨st, hst, hlen, hjoin⟩

/-! ## Banners do not interfere -/

theorem forall₂_filterMap {α β : Type} (R : β → β → Prop) (f g : α → Option β)
    (l : List α)
    (h : ∀ a ∈ l, (f a = none ∧ g a = none) ∨
      ∃ b b', f a = some b ∧ g a = some b' ∧ R b b') :
    List.Forall₂ R (l.filterMap f) (l.filterMap g) := by
  induction l with
  | nil => exact List.Forall₂.nil
  | cons a rest ih =>
    have hrest := ih (fun x hx => h x (List.mem_cons_of_mem _ hx))
    rcases h a (List.mem_cons_self _ _) with ⟨hf, hg⟩ | ⟨b, b', hf, hg, hR⟩
    · simpa [List.filterMap_cons, hf, hg] using hrest
    · simpa [List.filterMap_cons, hf, hg] using List.Forall₂.cons hR hrest

theorem Network.outcome_congr (net net' : Network) (hprobe : net'.probe = net.probe)
    (timeout p : Int) : net'.outcome timeout p = net.outcome timeout p := by
  simp [Network.outcome, hprobe]

theorem Network.openPorts_congr (net net' : Network) (hprobe : net'.probe = net.probe)
    (timeout : Int) (ports : List Int) :
    net'.openPorts timeout ports = net.openPorts timeout ports := by
  simp [Network.openPorts, Network.outcome_congr net net' hprobe]

/-- The records two targets with the same probe outcomes give for a port agree
on everything but the banner of an open port. -/
theorem Network.record_congr (net net' : Network) (hprobe : net'.probe = net.probe)
    (options : ScanOptions) (p : Int) :
    (net.record options p = none ∧ net'.record options p = none) ∨
    ∃ r r', net.record options p = some r ∧ net'.record options p = some r' ∧
      (r.port = r'.port ∧ r.status = r'.status ∧ r.service = r'.service ∧
        (r.status = .Closed → r = r')) := by
  have ho := Network.outcome_congr net net' hprobe options.timeout p
  unfold Network.record
  rw [ho]
  cases hout : net.outcome options.timeout p with
  | none => exact Or.inl ⟨rfl, rfl⟩
  | some status =>
    cases status with
    | Open => exact Or.inr ⟨_, _, rfl, rfl, rfl, rfl, rfl, fun h => by cases h⟩
    | Closed =>
      cases hsc : options.showClosed with
      | false => exact Or.inl ⟨by simp, by simp⟩
      | true =>
        exact Or.inr ⟨{ port := p, status := .Closed }, { port := p, status := .Closed },
          by simp, by simp, rfl, rfl, rfl, fun _ => rfl⟩

theorem Network.record_withoutBanner (net net' : Network) (hprobe : net'.probe = net.probe)
    (options : ScanOptions) (p : Int) :
    (net.record options p).map AnnotatedResult.withoutBanner =
      (net'.record options p).map AnnotatedResult.withoutBanner := by
  have ho := Network.outcome_congr net net' hprobe options.timeout p
  unfold Network.record
  rw [ho]
  cases hout : net.outcome options.timeout p with
  | none => rfl
  | some status => cases status <;> rfl

/-- C7: two scans of the same range with the same options, against targets
whose probes have the same outcomes and whose banner collectors (and settle
orders) are arbitrary, both return; their results pair up in order with equal
port, status and service, a Closed record being equal as a whole, so that only
the banner of an Open record can differ; their open, closed and total counts
are equal; and `grabBanner` is called exactly for the Open ports, in port
order, when `bannerGrab` is set, and not at all otherwise. -/
theorem scanPorts_banner_independent (net net' : Network) (startPort endPort : Int)
    (options : ScanOptions) (hprobe : net'.probe = net.probe)
    (hc : 1 ≤ options.concurrency)
    (hs : net.Settles options (scanPorts.ports startPort endPort))
    (hs' : net'.Settles options (scanPorts.ports startPort endPort)) :
    ∃ run run', scanPorts net startPort endPort options = .fulfilled run ∧
      scanPorts net' startPort endPort options = .fulfilled run' ∧
      List.Forall₂ (fun r r' => r.port = r'.port ∧ r.status = r'.status ∧
        r.service = r'.service ∧ (r.status = .Closed → r = r')) run.results run'.results ∧
      run.results.map AnnotatedResult.withoutBanner =
        run'.results.map AnnotatedResult.withoutBanner ∧
      run.summary = run'.summary ∧
      run.grabbed =
        (if options.bannerGrab then
          net.openPorts options.timeout (scanPorts.ports startPort endPort)
        else []) ∧
      run'.grabbed = run.grabbed := by
  refine ⟨_, _, scanPorts_eq net startPort endPort options hc hs,
    scanPorts_eq net' startPort endPort options hc hs', ?_, ?_, ?_, rfl, ?_⟩
  · exact forall₂_filterMap _ _ _ _ (fun p _ => Network.record_congr net net' hprobe options p)
  · simp only [List.map_filterMap]
    apply List.filterMap_congr
    intro p _
    exact Network.record_withoutBanner net net' hprobe options p
  · simp only [Network.openPorts_congr net net' hprobe]
  · simp only [Network.openPorts_congr net net' hprobe]

/-- C7, on ports 79 to 81 with banners grabbed: a collector that reads `hello`
and one that times out give the same records up to the banner of port 80. -/
theorem scanPorts_banner_independent_witness :
    (∃ run run', scanPorts lateFirst 79 81 { concurrency := 2, bannerGrab := true } =
        .fulfilled run ∧
      scanPorts noBanner 79 81 { concurrency := 2, bannerGrab := true } = .fulfilled run' ∧
      run.results.map AnnotatedResult.withoutBanner =
        run'.results.map AnnotatedResult.withoutBanner ∧
      run.summary = run'.summary) ∧
    (scanPorts lateFirst 79 81 { concurrency := 2, bannerGrab := true }).map (·.results) =
      .fulfilled
        [{ port := 80, status := .Open, service := some "HTTP", banner := some "hello" }] ∧
    (scanPorts noBanner 79 81 { concurrency := 2, bannerGrab := true }).map (·.results) =
      .fulfilled [{ port := 80, status := .Open, service := some "HTTP", banner := none }] := by
  refine ⟨?_, by decide, by decide⟩
  obtain ⟨run, run', h1, h2, _, h3, h4, _⟩ :=
    scanPorts_banner_independent lateFirst noBanner 79 81
      { concurrency := 2, bannerGrab := true } rfl (by decide)
      (lateFirst_settles _ _ (by decide) (by decide) (by decide))
      (noBanner_settles _ _ (by decide) (by decide) (by decide))
  exact ⟨run, run', h1, h2, h3, h4⟩

/-! ## Summary counts -/

theorem Network.open_add_closed (net : Network) (timeout : Int) (ports : List Int)
    (hp : ∀ p ∈ ports, net.outcome timeout p ≠ none) :
    (net.openPorts timeout ports).length + (net.closedPorts timeout ports).length =
      ports.length := by
  induction ports with
  | nil => rfl
  | cons p rest ih =>
    have hrest := ih (fun q hq => hp q (List.mem_cons_of_mem _ hq))
    have hpp := hp p (List.mem_cons_self _ _)
    unfold Network.openPorts Network.closedPorts at hrest ⊢
    cases ho : net.outcome timeout p with
    | none => exact absurd ho hpp
    | some status =>
      cases status <;> simp [List.filter_cons, ho] <;> omega

theorem scanPorts.ports_empty (endPort : Int) : scanPorts.ports (endPort + 1) endPort = [] := by
  have h : (endPort - (endPort + 1) + 1).toNat = 0 := by omega
  simp [scanPorts.ports, h, scanPorts.range]

/-- C9, as the code has it: for every range with `startPort ≤ endPort + 1`,
every `concurrency ≥ 1` and every target whose probes settle, `scanPorts`
returns, every port of the range is probed once, and the summary is exact:
`total` is the number of ports probed, `open` the number of ports whose probe
was Open, and `closed` the number of ports whose probe was Closed.  For the
empty range `startPort = endPort + 1` it returns, whatever the options and the
target, with no probe launched, no result and the counts 0, 0, 0. -/
theorem scanPorts_summary (net : Network) (startPort endPort : Int) (options : ScanOptions) :
    (startPort ≤ endPort + 1 → 1 ≤ options.concurrency →
      net.Settles options (scanPorts.ports startPort endPort) →
      ∃ run, scanPorts net startPort endPort options = .fulfilled run ∧
        run.launched.flatten = scanPorts.ports startPort endPort ∧
        run.summary.totalPorts = (run.launched.flatten.length : Int) ∧
        run.summary.openCount =
          ((net.openPorts options.timeout (scanPorts.ports startPort endPort)).length : Int) ∧
        run.summary.closedCount =
          ((net.closedPorts options.timeout (scanPorts.ports startPort endPort)).length
            : Int)) ∧
    (startPort = endPort + 1 →
      scanPorts net startPort endPort options =
        .fulfilled
          { results := [], summary := { openCount := 0, closedCount := 0, totalPorts := 0 },
            launched := [], grabbed := [] }) := by
  constructor
  · intro hrange hc hs
    have hjoin : (batchesOf options.concurrency.toNat (scanPorts.ports startPort endPort)).flatten
        = scanPorts.ports startPort endPort := batchesOf_join _ (by omega) _
    have hlen := scanPorts.ports_length startPort endPort
    have hsum := net.open_add_closed options.timeout _ hs.probe
    refine ⟨_, scanPorts_eq net startPort endPort options hc hs, hjoin, ?_, rfl, ?_⟩
    · simp only [hjoin, hlen]
      omega
    · simp only
      omega
  · intro h
    subst h
    simp [scanPorts, scanPorts.ports_empty, scanPorts.schedule, scanPorts.loop, printSummary]

/-- C9, on ports 79 to 81 with port 80 open, and on the empty range from 81 to
80. -/
theorem scanPorts_summary_witness :
    (∃ run, scanPorts lateFirst 79 81 { concurrency := 2 } = .fulfilled run ∧
      run.summary.totalPorts = (run.launched.flatten.length : Int)) ∧
    (scanPorts lateFirst 79 81 { concurrency := 2 }).map (·.summary) =
      .fulfilled { openCount := 1, closedCount := 2, totalPorts := 3 } ∧
    scanPorts lateFirst 81 80 { concurrency := 0 } =
      .fulfilled
        { results := [], summary := { openCount := 0, closedCount := 0, totalPorts := 0 },
          launched := [], grabbed := [] } := by
  refine ⟨?_, by decide, (scanPorts_summary lateFirst 81 80 { concurrency := 0 }).2 (by decide)⟩
  obtain ⟨run, h1, _, h2, _⟩ :=
    (scanPorts_summary lateFirst 79 81 { concurrency := 2 }).1 (by decide) (by decide)
      (lateFirst_settles _ _ (by decide) (by decide) (by decide))
  exact ⟨run, h1, h2⟩

/-- C9 as stated fails: the range from 5 to 3 has no port, no probe is
launched, and the summary is 0 open, -1 closed, -1 total. -/
theorem scanPorts_summary_negative :
    scanPorts.ports 5 3 = [] ∧
    scanPorts lateFirst 5 3 =
      .fulfilled
        { results := [], summary := { openCount := 0, closedCount := -1, totalPorts := -1 },
          launched := [], grabbed := [] } ∧
    (scanPorts lateFirst 5 3).map (·.summary) ≠
      .fulfilled { openCount := 0, closedCount := 0, totalPorts := 0 } := by
  decide

/-! ## The explicit port set of `main`, and `parseArgs` -/

theorem pushOpen_launched (net : Network) (bannerGrab : Bool) (st st' : ScanState)
    (result : ProbeResult) (service : String)
    (h : pushOpen net bannerGrab st result service = .fulfilled st') :
    st'.launched = st.launched := by
  unfold pushOpen at h
  split at h
  · split at h
    · cases h
    · simp only [PromiseState.fulfilled.injEq] at h; subst h; rfl
  · simp only [PromiseState.fulfilled.injEq] at h; subst h; rfl

theorem main.reportAll_launched (net : Network) (bannerGrab : Bool) (results : List ProbeResult)
    (st st' : ScanState) (h : main.reportAll net bannerGrab st results = .fulfilled st') :
    st'.launched = st.launched := by
  induction results generalizing st with
  | nil => simp only [main.reportAll, PromiseState.fulfilled.injEq] at h; subst h; rfl
  | cons r rest ih =>
    unfold main.reportAll at h
    cases hr : main.report net bannerGrab st r with
    | pending => simp [hr] at h
    | rejected code => simp [hr] at h
    | fulfilled st1 =>
      simp only [hr] at h
      rw [ih st1 h]
      unfold main.report at hr
      split at hr
      · exact pushOpen_launched net bannerGrab _ _ _ _ hr
      · simp only [PromiseState.fulfilled.injEq] at hr; subst hr; rfl

/-- C3, where the code departs from it: the explicit-port branch of `main`
hands all its ports to one `Promise.all`, whatever `concurrency` is.  With
`-p 80,443,8080 --concurrency 2` the parsed configuration has `concurrency` 2
and the branch launches one group of three probes.  The common-port scan does
batch: with `concurrency` 7 its thirty ports go out in groups of 7, 7, 7, 7
and 2. -/
theorem main_customPorts_single_group :
    (∀ (net : Network) (customPorts : List Int) (timeout : Int) (bannerGrab : Bool)
        (run : ScanRun),
      main.scanCustomPorts net customPorts timeout bannerGrab = .fulfilled run →
        run.launched = [customPorts]) ∧
    parseArgs ["node", "Scanner.js", "localhost", "-p", "80,443,8080", "--concurrency", "2"] =
      some (.config { host := "localhost", concurrency := 2,
                      customPorts := some [.num 80, .num 443, .num 8080] }) ∧
    (main.scanCustomPorts noBanner [80, 443, 8080] 2000 false).map (·.launched) =
      .fulfilled [[80, 443, 8080]] ∧
    (2 : Int) < (([80, 443, 8080] : List Int).length : Int) ∧
    (scanCommonPorts noBanner { concurrency := 7 }).map
        (fun run => run.launched.map List.length) = .fulfilled [7, 7, 7, 7, 2] := by
  refine ⟨?_, by decide, by decide, by decide, by decide⟩
  intro net customPorts timeout bannerGrab run h
  unfold main.scanCustomPorts at h
  simp only at h
  split at h
  · cases h
  · cases h
  · split at h
    · cases h
    · cases h
    · rename_i st hst
      simp only [PromiseState.fulfilled.injEq] at h
      subst h
      exact main.reportAll_launched net bannerGrab _ _ _ hst

/-- C8, where the code departs from it: `parseArgs` returns a configuration
for `-p 0,70000`, whose explicit ports 0 and 70000 lie outside 1..65535, and
for `-p abc`, whose start and end ports are `NaN`; a range such as `0-100` is
rejected. -/
theorem parseArgs_unchecked_ports :
    parseArgs ["node", "Scanner.js", "localhost", "-p", "0,70000"] =
      some (.config { host := "localhost", customPorts := some [.num 0, .num 70000] }) ∧
    parseArgs ["node", "Scanner.js", "localhost", "-p", "abc"] =
      some (.config { host := "localhost", startPort := .NaN, endPort := .NaN }) ∧
    parseArgs ["node", "Scanner.js", "localhost", "-p", "0-100"] =
      some (.exit 1 "Error: Invalid port range (must be 1-65535)") := by
  decide

end PortScanner
